import Mathlib

/-
  Verification of the Hyperion ORM runtime core (identity map, change
  tracker, unit of work, transaction manager, connection pool
  reconnection) against its natural-language specification.

  The TypeScript sources are embedded shallowly:
  * JS runtime values are modeled by `Value`; object identity (the JS
    reference compared by ===) is an explicit `oid` tag on composite
    values. JS `undefined` is not modeled; the claims under study only
    involve `null` and present fields.
  * Entity instances and tracker proxies are modeled as references
    (`Ref`); a Proxy object is never reference-equal to a plain object,
    which the two constructors of `Ref` capture.
  * Maps/WeakMaps are association lists in insertion order (the
    iteration order of JS Maps). No garbage collection is modeled, so a
    WeakRef deref always succeeds.
  * async I/O: each issued SQL statement's success is an oracle input;
    wall-clock durations and timers are not modeled.
-/

namespace Hyperion

/-- Association-list lookup: first binding wins (JS Map keys are unique). -/
def alGet {κ α : Type} [DecidableEq κ] : List (κ × α) → κ → Option α
  | [], _ => none
  | (k', v) :: rest, k => if k' = k then some v else alGet rest k

/-- JS Map.set: replace in place if the key exists, else append
(preserving insertion order). -/
def alSet {κ α : Type} [DecidableEq κ] : List (κ × α) → κ → α → List (κ × α)
  | [], k, v => [(k, v)]
  | (k', v') :: rest, k, v =>
      if k' = k then (k, v) :: rest else (k', v') :: alSet rest k v

/-- JS Map.delete: remove the binding if present. -/
def alErase {κ α : Type} [DecidableEq κ] : List (κ × α) → κ → List (κ × α)
  | [], _ => []
  | (k', v') :: rest, k => if k' = k then rest else (k', v') :: alErase rest k

/-- JS Array.prototype.indexOf: first index of the element, absent if
none (JS returns -1). -/
def jsIndexOf {α : Type} [DecidableEq α] : List α → α → Option Nat
  | [], _ => none
  | y :: ys, x => if y = x then some 0 else (jsIndexOf ys x).map (· + 1)

/-- JS runtime values. Composite values (objects and arrays) carry an
`oid` modeling JS reference identity; their fields are kept in insertion
order (array elements are the index-keyed own properties "0", "1", …). -/
inductive Value where
  | vnull
  | vbool (b : Bool)
  | vnum (n : Int)
  | vstr (s : String)
  | vcomp (oid : Nat) (isArr : Bool) (fields : List (String × Value))

/-- JS strict equality ===: primitives by value, objects by reference. -/
def jsEq : Value → Value → Bool
  | .vnull, .vnull => true
  | .vbool a, .vbool b => a == b
  | .vnum a, .vnum b => a == b
  | .vstr a, .vstr b => a == b
  | .vcomp i _ _, .vcomp j _ _ => i == j
  | _, _ => false

/-- JS typeof. -/
def typeofStr : Value → String
  | .vnull => "object"
  | .vbool _ => "boolean"
  | .vnum _ => "number"
  | .vstr _ => "string"
  | .vcomp _ _ _ => "object"

/-- JS String(v) for the values that reach it in the modeled code. -/
def jsToString : Value → String
  | .vnull => "null"
  | .vbool b => cond b "true" "false"
  | .vnum n => toString n
  | .vstr s => s
  | .vcomp _ _ _ => "[object Object]"

mutual
/-- JSON.stringify for the modeled values (string escaping is not
modeled; the ids under study contain no quotes). -/
def jsonStringify : Value → String
  | .vnull => "null"
  | .vbool b => cond b "true" "false"
  | .vnum n => toString n
  | .vstr s => "\"" ++ s ++ "\""
  | .vcomp _ true fields => "[" ++ String.intercalate "," (jsonStringifyArr fields) ++ "]"
  | .vcomp _ false fields =>
      "\x7b" ++ String.intercalate "," (jsonStringifyObj fields) ++ "\x7d"

def jsonStringifyArr : List (String × Value) → List String
  | [] => []
  | (_, v) :: rest => jsonStringify v :: jsonStringifyArr rest

def jsonStringifyObj : List (String × Value) → List String
  | [] => []
  | (k, v) :: rest => ("\"" ++ k ++ "\":" ++ jsonStringify v) :: jsonStringifyObj rest
end

/-- Stable insertion into a key-sorted field list (models
Object.keys(obj).sort(); keys are unique). -/
def insertSortedField (p : String × Value) : List (String × Value) → List (String × Value)
  | [] => [p]
  | q :: rest => if p.1 ≤ q.1 then p :: q :: rest else q :: insertSortedField p rest

def sortFieldsByKey : List (String × Value) → List (String × Value)
  | [] => []
  | p :: rest => insertSortedField p (sortFieldsByKey rest)

mutual
/-- sortObjectKeys from identity-map.ts: recursively sorts the keys of
plain objects; `isObject` excludes arrays, which are returned unchanged. -/
def sortObjectKeys : Value → Value
  | .vcomp oid false fields => .vcomp oid false (sortFieldsByKey (sortFieldsRec fields))
  | v => v

def sortFieldsRec : List (String × Value) → List (String × Value)
  | [] => []
  | (k, v) :: rest => (k, sortObjectKeys v) :: sortFieldsRec rest
end

/-- Read an own property of a composite value. -/
def getField : Value → String → Option Value
  | .vcomp _ _ fields, p => alGet fields p
  | _, _ => none

/-- Write an own property of a composite value (JS adds new properties
at the end of the insertion order; writes on primitives do not occur in
the modeled code paths). -/
def setFieldVal : Value → String → Value → Value
  | .vcomp oid a fields, p, v => .vcomp oid a (alSet fields p v)
  | v, _, _ => v

/-- Delete an own property of a composite value. -/
def deleteFieldVal : Value → String → Value
  | .vcomp oid a fields, p => .vcomp oid a (alErase fields p)
  | v, _ => v

/-- Follow a chain of property accesses. -/
def getPath : Value → List String → Option Value
  | v, [] => some v
  | v, q :: qs =>
      match getField v q with
      | some sub => getPath sub qs
      | none => none

/-- Apply an update to the value reached by a chain of property
accesses; an unreachable chain leaves the value unchanged (such a chain
never yields a nested proxy in the source, so no write reaches it). -/
def updatePath : Value → List String → (Value → Value) → Value
  | v, [], g => g v
  | v, q :: qs, g =>
      match getField v q with
      | some sub => setFieldVal v q (updatePath sub qs g)
      | none => v

/-- References to JS heap objects. A Proxy created by the change tracker
is a distinct object from every plain entity instance, hence the two
constructors. -/
inductive Ref where
  | inst (n : Nat)
  | proxy (n : Nat)
deriving DecidableEq

/-! ## Identity Map (src/core/identity-map.ts) -/

/-- State of an `IdentityMap`. `maps` models the per-entity WeakMaps
(keyed by key-object identity), `keyRegistry` the compositeKey → WeakRef
registry (deref always succeeds: no GC in the model), `nextKeyObj` the
allocator for key objects. -/
structure IdentityMap where
  enableWeakRefs : Bool
  maps : List (String × List (Nat × Ref))
  keyRegistry : List (String × Nat)
  nextKeyObj : Nat

/-- A fresh identity map with the given options (constructor default:
enableWeakRefs = true). -/
def IdentityMap.empty (enableWeakRefs : Bool := true) : IdentityMap :=
  ⟨enableWeakRefs, [], [], 0⟩

/-- createCompositeKey: throws on null id, keys objects by their sorted
JSON text, and prefixes scalar ids with their typeof. -/
def createCompositeKey (entity : String) (id : Value) : Except String String :=
  match id with
  | .vnull => .error ("Invalid ID for entity " ++ entity ++ ": null")
  | .vcomp _ _ _ => .ok (entity ++ ":obj:" ++ jsonStringify (sortObjectKeys id))
  | _ => .ok (entity ++ ":" ++ typeofStr id ++ ":" ++ jsToString id)

/-- getKeyObject: registry lookup (WeakRef deref never fails in the
model, so the dead-ref cleanup path is unreachable). -/
def IdentityMap.getKeyObject (m : IdentityMap) (entity : String) (id : Value) :
    Except String (Option Nat) :=
  match createCompositeKey entity id with
  | .error e => .error e
  | .ok key => .ok (alGet m.keyRegistry key)

/-- getOrCreateKeyObject: reuse the registered key object, else allocate
a fresh one, registering it only when weak refs are enabled. -/
def IdentityMap.getOrCreateKeyObject (m : IdentityMap) (entity : String) (id : Value) :
    Except String (IdentityMap × Nat) :=
  match createCompositeKey entity id with
  | .error e => .error e
  | .ok key =>
      match alGet m.keyRegistry key with
      | some keyObj => .ok (m, keyObj)
      | none =>
          let keyObj := m.nextKeyObj
          let registry := if m.enableWeakRefs then alSet m.keyRegistry key keyObj else m.keyRegistry
          .ok ({ m with keyRegistry := registry, nextKeyObj := m.nextKeyObj + 1 }, keyObj)

/-- IdentityMap.get. Note the early `if (!map) return undefined`: a kind
with no per-entity map short-circuits before the id is validated. -/
def IdentityMap.get (m : IdentityMap) (entity : String) (id : Value) :
    Except String (Option Ref) :=
  match alGet m.maps entity with
  | none => .ok none
  | some map =>
      match m.getKeyObject entity id with
      | .error e => .error e
      | .ok none => .ok none
      | .ok (some keyObj) => .ok (alGet map keyObj)

/-- IdentityMap.set: the per-entity map is created *before* the id is
validated (a mutation that survives the exception), and an existing
entry is returned unchanged, never overwritten. -/
def IdentityMap.set (m : IdentityMap) (entity : String) (id : Value) (ref : Ref) :
    IdentityMap × Except String Ref :=
  let m1 := match alGet m.maps entity with
    | some _ => m
    | none => { m with maps := alSet m.maps entity [] }
  match m1.getOrCreateKeyObject entity id with
  | .error e => (m1, .error e)
  | .ok (m2, keyObj) =>
      let map := (alGet m2.maps entity).getD []
      match alGet map keyObj with
      | some existing => (m2, .ok existing)
      | none =>
          ({ m2 with maps := alSet m2.maps entity (alSet map keyObj ref) }, .ok ref)

/-- IdentityMap.delete: early-false when the kind has no map, then
validates the id; removes the entry and its registry binding. -/
def IdentityMap.delete (m : IdentityMap) (entity : String) (id : Value) :
    IdentityMap × Except String Bool :=
  match alGet m.maps entity with
  | none => (m, .ok false)
  | some map =>
      match m.getKeyObject entity id with
      | .error e => (m, .error e)
      | .ok none => (m, .ok false)
      | .ok (some keyObj) =>
          let result := (alGet map keyObj).isSome
          let key := (createCompositeKey entity id).toOption.getD ""
          ({ m with maps := alSet m.maps entity (alErase map keyObj),
                    keyRegistry := alErase m.keyRegistry key }, .ok result)

/-- IdentityMap.has: same early-false shape as get. -/
def IdentityMap.has (m : IdentityMap) (entity : String) (id : Value) :
    Except String Bool :=
  match alGet m.maps entity with
  | none => .ok false
  | some map =>
      match m.getKeyObject entity id with
      | .error e => .error e
      | .ok none => .ok false
      | .ok (some keyObj) => .ok (alGet map keyObj).isSome

/-! ## Change Tracker (src/core/change-tracker.ts) -/

inductive ChangeType where
  | created 
  | updated
  | deleted
deriving DecidableEq

/-- EntityChange: derived read-only view of a tracked entity's state. -/
structure EntityChange where
  entity : String
  id : Value
  type : ChangeType
  originalData : Option Value := none
  currentData : Option Value := none
  changedFields : Option (List String) := none

/-- TrackedEntity: one entry of the change tracker. `data` is the live
object the proxy wraps (writes through the proxy mutate it in place),
`dataRef`/`proxyRef` are the references of the wrapped object and of its
proxy, `changedFields` is the Set of recorded field paths in insertion
order. -/
structure TrackedEntity where
  entity : String
  id : Value
  dataRef : Ref
  proxyRef : Ref
  data : Value
  originalData : Value
  isNew : Bool
  isDeleted : Bool
  changedFields : List String

/-- ChangeTracker state; tracked entries keyed by createKey in insertion
order. `nextProxyId` models allocation of fresh Proxy objects. (The
`entityProxies` WeakMap only guards against re-wrapping another entity's
proxy; proxies cannot occur inside `Value`, so it has no observable
effect in the model.) -/
structure ChangeTracker where
  trackedEntities : List (String × TrackedEntity)
  nextProxyId : Nat

def ChangeTracker.empty : ChangeTracker := ⟨[], 0⟩

/-- createKey from change-tracker.ts. -/
def createKey (entity : String) (id : Value) : String :=
  entity ++ ":" ++ jsonStringify id

/-- deepClone (src/utils): a structural copy. JS allocates fresh object
identities for the clone, but no modeled code path ever compares a
clone's identity with ===, so the copy is represented as-is. -/
def deepClone (v : Value) : Value := v

/-- Set.add: append if absent (JS Sets iterate in insertion order). -/
def addField (fs : List String) (f : String) : List String :=
  if f ∈ fs then fs else fs ++ [f]

/-- ChangeTracker.track: idempotent — an already-tracked key returns the
proxy already issued, ignoring the new payload; otherwise snapshots the
data, allocates a proxy and registers the entry. -/
def ChangeTracker.track (t : ChangeTracker) (entity : String) (id : Value)
    (dataRef : Ref) (dataVal : Value) (isNew : Bool) : ChangeTracker × Ref :=
  let key := createKey entity id
  match alGet t.trackedEntities key with
  | some e => (t, e.proxyRef)
  | none =>
      let proxyRef := Ref.proxy t.nextProxyId
      let entry : TrackedEntity :=
        { entity, id, dataRef, proxyRef, data := dataVal,
          originalData := deepClone dataVal, isNew, isDeleted := false,
          changedFields := [] }
      ({ trackedEntities := alSet t.trackedEntities key entry,
         nextProxyId := t.nextProxyId + 1 }, proxyRef)

/-- ChangeTracker.markDeleted: fails on an untracked key. -/
def ChangeTracker.markDeleted (t : ChangeTracker) (entity : String) (id : Value) :
    Except String ChangeTracker :=
  let key := createKey entity id
  match alGet t.trackedEntities key with
  | none => .error ("Entity " ++ entity ++ " with id " ++ jsToString id ++ " is not being tracked")
  | some e =>
      .ok { t with trackedEntities := alSet t.trackedEntities key ({ e with isDeleted := true }) }

/-- ChangeTracker.getChanges: one change per deleted / new / modified
entry, in tracking order; unchanged existing entries produce nothing. -/
def ChangeTracker.getChanges (t : ChangeTracker) : List EntityChange :=
  t.trackedEntities.filterMap fun p =>
    let e := p.2
    if e.isDeleted then
      some { entity := e.entity, id := e.id, type := .deleted, originalData := some e.originalData }
    else if e.isNew then
      some { entity := e.entity, id := e.id, type := .created, currentData := some e.data }
    else if e.changedFields ≠ [] then
      some { entity := e.entity, id := e.id, type := .updated,
             originalData := some e.originalData, currentData := some e.data,
             changedFields := some e.changedFields }
    else none

/-- ChangeTracker.resetChanges: re-baseline the snapshot, clear the
changed set and the isNew flag; drop the entry entirely if it was
marked deleted. -/
def ChangeTracker.resetChanges (t : ChangeTracker) (entity : String) (id : Value) :
    ChangeTracker :=
  let key := createKey entity id
  match alGet t.trackedEntities key with
  | none => t
  | some e =>
      if e.isDeleted then
        { t with trackedEntities := alErase t.trackedEntities key }
      else
        let e' := { e with originalData := deepClone e.data, changedFields := [], isNew := false }
        { t with trackedEntities := alSet t.trackedEntities key e' }

/-- Update one tracked entry in place. -/
def ChangeTracker.modifyEntry (t : ChangeTracker) (key : String)
    (g : TrackedEntity → TrackedEntity) : ChangeTracker :=
  match alGet t.trackedEntities key with
  | none => t
  | some e => { t with trackedEntities := alSet t.trackedEntities key (g e) }

/-- A property write through a tracked entity's proxy. `chain` is the
access chain that reached the owning object (empty for a write on the
wrapped instance itself, e.g. `chain = ["profile"]`, `p = "bio"` for
`wrapped.profile.bio = v`).

Source semantics: the top-level proxy's set handler records `p` only
when the old value !== the new one; a nested proxy's set handler records
the owning path `String.intercalate "." chain` unconditionally — note no
value comparison, and the final property name is not part of the
recorded path. Symbol-keyed properties are not recorded (prop names are
strings here). -/
def ChangeTracker.proxyWrite (t : ChangeTracker) (entity : String) (id : Value)
    (chain : List String) (p : String) (v : Value) : ChangeTracker :=
  t.modifyEntry (createKey entity id) fun e =>
    match chain with
    | [] =>
        let changed :=
          match getField e.data p with
          | some old => if jsEq old v then e.changedFields else addField e.changedFields p
          | none => addField e.changedFields p
        { e with data := setFieldVal e.data p v, changedFields := changed }
    | _ :: _ =>
        { e with data := updatePath e.data chain (fun o => setFieldVal o p v),
                 changedFields := addField e.changedFields (String.intercalate "." chain) }

/-- A property deletion through a proxy: records the property name at
top level, the owning path for nested objects — in both cases
unconditionally. -/
def ChangeTracker.proxyDelete (t : ChangeTracker) (entity : String) (id : Value)
    (chain : List String) (p : String) : ChangeTracker :=
  t.modifyEntry (createKey entity id) fun e =>
    match chain with
    | [] =>
        { e with data := deleteFieldVal e.data p, changedFields := addField e.changedFields p }
    | _ :: _ =>
        { e with data := updatePath e.data chain (fun o => deleteFieldVal o p),
                 changedFields := addField e.changedFields (String.intercalate "." chain) }

def mutatingArrayMethods : List String :=
  ["push", "pop", "shift", "unshift", "splice", "sort", "reverse"]

/-- Invocation of an in-place mutating array method on an array reached
through the proxy at access chain `chain` (nonempty: the array was
obtained by at least one property get). The wrapper records the array's
own path and then applies the method (`f` is the method's effect on the
index-keyed entries). A non-mutating method records nothing. -/
def ChangeTracker.proxyArrayMutate (t : ChangeTracker) (entity : String) (id : Value)
    (chain : List String) (method : String)
    (f : List (String × Value) → List (String × Value)) : ChangeTracker :=
  t.modifyEntry (createKey entity id) fun e =>
    match getPath e.data chain with
    | some (.vcomp oid true fields) =>
        if method ∈ mutatingArrayMethods then
          { e with data := updatePath e.data chain (fun _ => .vcomp oid true (f fields)),
                   changedFields := addField e.changedFields (String.intercalate "." chain) }
        else e
    | _ => e

/-! ## Unit of Work (src/core/unit-of-work.ts) -/

inductive PrimaryKey where
  | single (k : String)
  | composite (ks : List String)

/-- EntityMetadata: table name, primary key field(s), field → column map
in insertion order. -/
structure EntityMetadata where
  entity : String
  table : String
  primaryKey : PrimaryKey
  columns : List (String × String)

/-- The parameterized SQL statements commit issues, keeping the parts
the statement text is assembled from (positional parameters in order). -/
inductive Stmt where
  | beginTx
  | commitTx
  | rollbackTx
  | insertRow (table : String) (columns : List String) (values : List Value)
  | updateRow (table : String) (setColumns : List String) (whereColumns : List String)
      (values : List Value)
  | deleteRow (table : String) (whereColumns : List String) (values : List Value)

structure CommitResult where
  created : Nat
  updated : Nat
  deleted : Nat

inductive UowError where
  | closed
  | noConnection
  | notRegistered (entity : String)
  | notLoaded (entity : String)
  | notTracked (entity : String)
  | invalidKey (msg : String)
  | noMetadata (entity : String)
  | queryFailed (s : Stmt)

/-- UnitOfWork state. The bound connection is modeled by `hasConnection`
plus the per-commit statement oracle passed to `commit`; `autoFlush`
only triggers a console warning in the source and has no modeled
effect. UnitOfWork constructs its IdentityMap with default options, so
its `identityMap.enableWeakRefs` is true. -/
structure UnitOfWork where
  identityMap : IdentityMap
  changeTracker : ChangeTracker
  enableChangeTracking : Bool
  entityMetadata : List (String × EntityMetadata)
  hasConnection : Bool
  isActive : Bool

/-- A freshly constructed UnitOfWork (enableChangeTracking defaults to
true). -/
def UnitOfWork.make (enableChangeTracking : Bool := true) : UnitOfWork :=
  { identityMap := IdentityMap.empty, changeTracker := ChangeTracker.empty,
    enableChangeTracking, entityMetadata := [], hasConnection := false, isActive := true }

def UnitOfWork.registerEntity (u : UnitOfWork) (md : EntityMetadata) : UnitOfWork :=
  { u with entityMetadata := alSet u.entityMetadata md.entity md }

/-- extractId: read the primary key field(s) off the payload; a missing
field yields JS undefined, which behaves like the modeled null in every
downstream check (createCompositeKey rejects both). -/
def extractId (data : Value) (md : EntityMetadata) : Value :=
  match md.primaryKey with
  | .single k => (getField data k).getD .vnull
  | .composite ks => .vcomp 0 false (ks.map fun k => (k, (getField data k).getD .vnull))

/-- UnitOfWork.get: identity map first; on a miss with supplied data,
register the payload, wrap it with the tracker as existing/unmodified,
and swap the identity-map entry for the tracked proxy. -/
def UnitOfWork.get (u : UnitOfWork) (entity : String) (id : Value)
    (dataArg : Option (Ref × Value)) : UnitOfWork × Except UowError (Option Ref) :=
  if !u.isActive then (u, .error .closed)
  else
    match u.identityMap.get entity id with
    | .error e => (u, .error (.invalidKey e))
    | .ok (some r) => (u, .ok (some r))
    | .ok none =>
        match dataArg with
        | none => (u, .ok none)
        | some (dref, dval) =>
            let (im1, res) := u.identityMap.set entity id dref
            match res with
            | .error e => ({ u with identityMap := im1 }, .error (.invalidKey e))
            | .ok r =>
                if u.enableChangeTracking then
                  let (ct1, proxyRef) := u.changeTracker.track entity id r dval false
                  let (im2, dres) := im1.delete entity id
                  match dres with
                  | .error e => ({ u with identityMap := im2, changeTracker := ct1 },
                                 .error (.invalidKey e))
                  | .ok _ =>
                      let (im3, sres) := im2.set entity id proxyRef
                      match sres with
                      | .error e => ({ u with identityMap := im3, changeTracker := ct1 },
                                     .error (.invalidKey e))
                      | .ok r' => ({ u with identityMap := im3, changeTracker := ct1 },
                                   .ok (some r'))
                else ({ u with identityMap := im1 }, .ok (some r))

/-- UnitOfWork.create: identity-map precedence — an existing key returns
the mapped instance, the new payload discarded; otherwise register,
track as new and swap in the proxy. -/
def UnitOfWork.create (u : UnitOfWork) (entity : String) (dref : Ref) (dval : Value) :
    UnitOfWork × Except UowError Ref :=
  if !u.isActive then (u, .error .closed)
  else
    match alGet u.entityMetadata entity with
    | none => (u, .error (.notRegistered entity))
    | some md =>
        let id := extractId dval md
        match u.identityMap.get entity id with
        | .error e => (u, .error (.invalidKey e))
        | .ok (some existing) => (u, .ok existing)
        | .ok none =>
            let (im1, res) := u.identityMap.set entity id dref
            match res with
            | .error e => ({ u with identityMap := im1 }, .error (.invalidKey e))
            | .ok r =>
                if u.enableChangeTracking then
                  let (ct1, tracked) := u.changeTracker.track entity id r dval true
                  let (im2, dres) := im1.delete entity id
                  match dres with
                  | .error e => ({ u with identityMap := im2, changeTracker := ct1 },
                                 .error (.invalidKey e))
                  | .ok _ =>
                      let (im3, sres) := im2.set entity id tracked
                      match sres with
                      | .error e => ({ u with identityMap := im3, changeTracker := ct1 },
                                     .error (.invalidKey e))
                      | .ok _ => ({ u with identityMap := im3, changeTracker := ct1 },
                                  .ok tracked)
                else ({ u with identityMap := im1 }, .ok r)

/-- UnitOfWork.delete: the entity must already be loaded; marks it
deleted in the tracker. -/
def UnitOfWork.deleteEntity (u : UnitOfWork) (entity : String) (id : Value) :
    UnitOfWork × Except UowError Unit :=
  if !u.isActive then (u, .error .closed)
  else
    match u.identityMap.has entity id with
    | .error e => (u, .error (.invalidKey e))
    | .ok false => (u, .error (.notLoaded entity))
    | .ok true =>
        match u.changeTracker.markDeleted entity id with
        | .error _ => (u, .error (.notTracked entity))
        | .ok ct1 => ({ u with changeTracker := ct1 }, .ok ())

/-- UnitOfWork.persist: adopt an instance into the identity map, track
it as new, and return the tracker proxy — the identity-map entry is
*not* replaced by the proxy. -/
def UnitOfWork.persist (u : UnitOfWork) (entity : String) (iref : Ref) (ival : Value) :
    UnitOfWork × Except UowError Ref :=
  if !u.isActive then (u, .error .closed)
  else
    match alGet u.entityMetadata entity with
    | none => (u, .error (.notRegistered entity))
    | some md =>
        let id := extractId ival md
        let (im1, res) := u.identityMap.set entity id iref
        match res with
        | .error e => ({ u with identityMap := im1 }, .error (.invalidKey e))
        | .ok managed =>
            if u.enableChangeTracking then
              let (ct1, proxyRef) := u.changeTracker.track entity id managed ival true
              ({ u with identityMap := im1, changeTracker := ct1 }, .ok proxyRef)
            else ({ u with identityMap := im1 }, .ok managed)

def UnitOfWork.getChanges (u : UnitOfWork) : List EntityChange :=
  u.changeTracker.getChanges

def UnitOfWork.hasChanges (u : UnitOfWork) : Bool :=
  u.changeTracker.getChanges.length > 0

/-- buildWhereClause: one condition per primary-key column; positional
parameters appended in order. -/
def buildWhereClause (id : Value) (md : EntityMetadata) : List String × List Value :=
  match md.primaryKey with
  | .composite ks =>
      let picked := ks.filterMap fun k =>
        (alGet md.columns k).map fun col => (col, (getField id k).getD .vnull)
      (picked.map Prod.fst, picked.map Prod.snd)
  | .single k => ([(alGet md.columns k).getD "undefined"], [id])

/-- executeDelete's statement. -/
def mkDeleteStmt (md : EntityMetadata) (c : EntityChange) : Stmt :=
  let (cols, vals) := buildWhereClause c.id md
  .deleteRow md.table cols vals

/-- executeUpdate's statement: SET clause only from changedFields that
map to columns; no statement at all when that set is empty. -/
def mkUpdateStmt (md : EntityMetadata) (c : EntityChange) : Option Stmt :=
  let cur := c.currentData.getD .vnull
  let setPairs := (c.changedFields.getD []).filterMap fun f =>
    (alGet md.columns f).map fun col => (col, (getField cur f).getD .vnull)
  if setPairs.isEmpty then none
  else
    let (wcols, wvals) := buildWhereClause c.id md
    some (.updateRow md.table (setPairs.map Prod.fst) wcols (setPairs.map Prod.snd ++ wvals))

/-- executeCreate's statement: one column per metadata column whose
field is present on the payload. -/
def mkInsertStmt (md : EntityMetadata) (c : EntityChange) : Stmt :=
  let cur := c.currentData.getD .vnull
  let picked := md.columns.filterMap fun pc =>
    (getField cur pc.1).map fun v => (pc.2, v)
  .insertRow md.table (picked.map Prod.fst) (picked.map Prod.snd)

/-- The statement (if any) a change contributes, or the error raised
while building it. -/
def buildStmtFor (u : UnitOfWork) (c : EntityChange) : Except UowError (Option Stmt) :=
  match alGet u.entityMetadata c.entity with
  | none => .error (.noMetadata c.entity)
  | some md =>
      match c.type with
      | .deleted => .ok (some (mkDeleteStmt md c))
      | .updated => .ok (mkUpdateStmt md c)
      | .created => .ok (some (mkInsertStmt md c))

/-- The pending deletes, in tracking order. -/
def commitDeletes (u : UnitOfWork) : List EntityChange :=
  u.changeTracker.getChanges.filter (·.type = .deleted)

/-- The pending updates, in tracking order. -/
def commitUpdates (u : UnitOfWork) : List EntityChange :=
  u.changeTracker.getChanges.filter (·.type = .updated)

/-- The pending creates, in tracking order. -/
def commitCreates (u : UnitOfWork) : List EntityChange :=
  u.changeTracker.getChanges.filter (·.type = .created)

/-- The commit plan: deletes first, then updates, then creates. -/
def commitItems (u : UnitOfWork) : List (Except UowError (Option Stmt)) :=
  (commitDeletes u ++ commitUpdates u ++ commitCreates u).map (buildStmtFor u)

/-- Issue the per-change statements in order against the oracle
(`oracle n` is the success of the n-th query of this commit); stops at
the first build error or failed query. Returns the next oracle index,
the statements actually issued, and the error if any. -/
def runItems (oracle : Nat → Bool) : Nat → List (Except UowError (Option Stmt)) →
    Nat × List Stmt × Option UowError
  | idx, [] => (idx, [], none)
  | idx, item :: rest =>
      match item with
      | .error e => (idx, [], some e)
      | .ok none => runItems oracle idx rest
      | .ok (some s) =>
          if oracle idx then
            let (idx', stmts, err) := runItems oracle (idx + 1) rest
            (idx', s :: stmts, err)
          else (idx + 1, [s], some (.queryFailed s))

/-- Post-commit bookkeeping: reset every committed entity's tracker
state and evict deleted entities from the identity map (an identity-map
error here would propagate, but deleted entities always carry valid
ids). -/
def applyPostCommit (u : UnitOfWork) : List EntityChange → UnitOfWork
  | [] => u
  | c :: rest =>
      let ct1 := u.changeTracker.resetChanges c.entity c.id
      let u1 :=
        if c.type = .deleted then
          let (im1, _) := u.identityMap.delete c.entity c.id
          { u with identityMap := im1, changeTracker := ct1 }
        else { u with changeTracker := ct1 }
      applyPostCommit u1 rest

/-- UnitOfWork.commit.

Resulting tuple: the new state, the statements issued on the connection
in order, and the outcome. No transaction is opened when there are no
pending changes. Otherwise BEGIN, then deletes, then updates, then
creates, then COMMIT; on any failure a ROLLBACK is issued (consuming an
oracle slot of its own — a rollback that itself fails replaces the
error, as the rethrow in the source happens after the awaited ROLLBACK)
and the tracked state is left untouched. On success tracker baselines
are reset and deleted entries evicted. The wall-clock duration field is
not modeled. -/
def UnitOfWork.commit (u : UnitOfWork) (oracle : Nat → Bool) :
    UnitOfWork × List Stmt × Except UowError CommitResult :=
  if !u.isActive then (u, [], .error .closed)
  else if !u.hasConnection then (u, [], .error .noConnection)
  else
    let changes := u.changeTracker.getChanges
    if changes.isEmpty then (u, [], .ok ⟨0, 0, 0⟩)
    else if !oracle 0 then
      -- BEGIN failed; the catch issues ROLLBACK and rethrows.
      let issued := [Stmt.beginTx, Stmt.rollbackTx]
      if oracle 1 then (u, issued, .error (.queryFailed .beginTx))
      else (u, issued, .error (.queryFailed .rollbackTx))
    else
      let (idx, stmts, err) := runItems oracle 1 (commitItems u)
      match err with
      | some e =>
          let issued := Stmt.beginTx :: stmts ++ [Stmt.rollbackTx]
          if oracle idx then (u, issued, .error e)
          else (u, issued, .error (.queryFailed .rollbackTx))
      | none =>
          if oracle idx then
            let u' := applyPostCommit u changes
            (u', Stmt.beginTx :: stmts ++ [Stmt.commitTx],
             .ok ⟨(commitCreates u).length, (commitUpdates u).length, (commitDeletes u).length⟩)
          else
            let issued := Stmt.beginTx :: stmts ++ [Stmt.commitTx, Stmt.rollbackTx]
            if oracle (idx + 1) then (u, issued, .error (.queryFailed .commitTx))
            else (u, issued, .error (.queryFailed .rollbackTx))

/-! ## Transaction Manager (transaction-manager source) -/

/-- A driver-reported error; `code` is the optional SQLSTATE, `tag`
distinguishes distinct error objects. -/
structure JsError where
  code : Option String
  tag : Nat := 0
deriving DecidableEq

/-- isDeadlock: the two PostgreSQL deadlock / serialization-failure
codes. -/
def isDeadlockErr (e : JsError) : Bool :=
  e.code = some "40P01" || e.code = some "40001"

inductive TmError where
  | noActiveTransaction (txId : String)
  | savepointNotFound (name : String)
  | queryFailed (sql : String)
  | callbackFailed (e : JsError)
deriving DecidableEq

/-- TransactionContext (start time is wall clock, not modeled). -/
structure TransactionContext where
  id : String
  level : Nat
  isolationLevel : Option String
  savepoints : List String
  readOnly : Bool
  isActive : Bool
deriving DecidableEq

structure TransactionOptions where
  isolationLevel : Option String := none
  retryOnDeadlock : Bool := false
  maxRetries : Option Nat := none
  retryDelay : Option Nat := none
  readOnly : Bool := false
  deferrable : Bool := false

structure TransactionResult (T : Type) where
  result : T
  retries : Nat
  savepoints : Nat
deriving DecidableEq

/-- TransactionManager state. `conn s` is the success of issuing SQL
text `s` on the wrapped connection (the cooperative timeout race is
wall-clock behavior outside this model). -/
structure TransactionManager where
  conn : String → Bool
  activeTransactions : List (String × TransactionContext)
  nextTransactionId : Nat
  nextSavepointId : Nat

/-- The state after a successful rollback to the savepoint at index i:
the savepoint list keeps its first i+1 entries. -/
def pruneSavepoints (tm : TransactionManager) (txId : String) (tx : TransactionContext)
    (i : Nat) : TransactionManager :=
  let tx' := { tx with savepoints := tx.savepoints.take (i + 1) }
  { tm with activeTransactions := alSet tm.activeTransactions txId tx' }

/-- rollbackToSavepoint: unknown/inactive transaction id fails with
NoActiveTransaction, a name absent from the savepoint list with
SavepointNotFound; otherwise issues ROLLBACK TO SAVEPOINT and discards
every savepoint recorded after the named one (splice(index + 1)).
Returns the new state, the SQL issued, and the outcome. -/
def TransactionManager.rollbackToSavepoint (tm : TransactionManager)
    (txId name : String) : TransactionManager × List String × Except TmError Unit :=
  match alGet tm.activeTransactions txId with
  | none => (tm, [], .error (.noActiveTransaction txId))
  | some tx =>
      if !tx.isActive then (tm, [], .error (.noActiveTransaction txId))
      else
        match jsIndexOf tx.savepoints name with
        | none => (tm, [], .error (.savepointNotFound name))
        | some i =>
            let sql := "ROLLBACK TO SAVEPOINT " ++ name
            if tm.conn sql then
              let tx' := { tx with savepoints := tx.savepoints.take (i + 1) }
              ({ tm with activeTransactions := alSet tm.activeTransactions txId tx' },
               [sql], .ok ())
            else (tm, [sql], .error (.queryFailed sql))

/-- beginTransaction's statement list: BEGIN plus configured SET
statements at level 0, a level-named SAVEPOINT otherwise. -/
def beginStatements (tx : TransactionContext) (opts : TransactionOptions) : List String :=
  if tx.level = 0 then
    ["BEGIN"]
      ++ (match opts.isolationLevel with
          | some lvl => ["SET TRANSACTION ISOLATION LEVEL " ++ lvl]
          | none => [])
      ++ (if opts.readOnly then ["SET TRANSACTION READ ONLY"] else [])
      ++ (if opts.deferrable && opts.readOnly then ["SET TRANSACTION DEFERRABLE"] else [])
  else ["SAVEPOINT sp_level_" ++ toString tx.level]

/-- Issue a statement list in order; first failure wins. -/
def runSqlList (conn : String → Bool) : List String → Except TmError Unit
  | [] => .ok ()
  | s :: rest => if conn s then runSqlList conn rest else .error (.queryFailed s)

/-- executeTransaction for one attempt. The callback is abstracted by
its outcome `cb` for this attempt (callbacks that address savepoints
through the manager are covered by the standalone savepoint
operations). On failure the rollback statement's own failure is
swallowed; the `finally` always removes the context, so the map returns
to its previous bindings while `nextTransactionId` stays advanced. -/
def TransactionManager.executeTransaction {T : Type} (tm : TransactionManager)
    (opts : TransactionOptions) (attempt : Nat) (cb : Except JsError T) :
    TransactionManager × Except TmError (TransactionResult T) :=
  let txId := "tx_" ++ toString tm.nextTransactionId
  let tx : TransactionContext :=
    { id := txId, level := tm.activeTransactions.length,
      isolationLevel := opts.isolationLevel, savepoints := [],
      readOnly := opts.readOnly, isActive := true }
  let tx := if tx.level = 0 then tx
            else { tx with savepoints := ["sp_level_" ++ toString tx.level] }
  let tm1 : TransactionManager :=
    { tm with activeTransactions := alSet tm.activeTransactions txId tx,
              nextTransactionId := tm.nextTransactionId + 1 }
  let cleanup : TransactionManager → TransactionManager := fun m =>
    { m with activeTransactions := alErase m.activeTransactions txId }
  match runSqlList tm.conn (beginStatements tx opts) with
  | .error e =>
      -- rollbackTransaction: issue ROLLBACK (level 0) or ROLLBACK TO
      -- SAVEPOINT, ignoring its own failure.
      (cleanup tm1, .error e)
  | .ok () =>
      match cb with
      | .error e => (cleanup tm1, .error (.callbackFailed e))
      | .ok v =>
          let commitSql := if tx.level = 0 then "COMMIT"
                           else "RELEASE SAVEPOINT sp_level_" ++ toString tx.level
          if tm.conn commitSql then
            (cleanup tm1, .ok { result := v, retries := attempt,
                                savepoints := tx.savepoints.length })
          else (cleanup tm1, .error (.queryFailed commitSql))

/-- The deadlock test withTransaction applies to a caught error: only
errors carrying a driver code can match (query failures carry none). -/
def tmErrIsDeadlock : TmError → Bool
  | .callbackFailed e => isDeadlockErr e
  | _ => false

/-- options.retryDelay || 100 (JS ||: 0 is falsy). -/
def effRetryDelay (opts : TransactionOptions) : Nat :=
  match opts.retryDelay with
  | some d => if d = 0 then 100 else d
  | none => 100

/-- The retry loop of withTransaction. `cbs k` is the callback outcome
of the execution whose `retries` counter is k. Returns the final state,
the backoff delays slept (in order), and the outcome. The loop runs
while retries ≤ maxRetries, retrying only deadlock errors when
retryOnDeadlock is set and retries < maxRetries, sleeping
(retryDelay || 100) * 2^(newRetries - 1) before each retry. -/
def withTransactionLoop {T : Type} (opts : TransactionOptions) (maxRetries : Nat)
    (cbs : Nat → Except JsError T) (tm : TransactionManager) (retries : Nat) :
    TransactionManager × List Nat × Except TmError (TransactionResult T) :=
  let (tm', res) := tm.executeTransaction opts retries (cbs retries)
  match res with
  | .ok r => (tm', [], .ok r)
  | .error e =>
      if _h : (tmErrIsDeadlock e && opts.retryOnDeadlock) = true ∧ retries < maxRetries then
        let delay := effRetryDelay opts * 2 ^ (retries + 1 - 1)
        let (tm'', delays, out) := withTransactionLoop opts maxRetries cbs tm' (retries + 1)
        (tm'', delay :: delays, out)
      else (tm', [], .error e)
termination_by maxRetries - retries
decreasing_by omega

/-- withTransaction: maxRetries defaults to 3 when retryOnDeadlock is
set, else 0. -/
def TransactionManager.withTransaction {T : Type} (tm : TransactionManager)
    (cbs : Nat → Except JsError T) (opts : TransactionOptions) :
    TransactionManager × List Nat × Except TmError (TransactionResult T) :=
  let maxRetries := opts.maxRetries.getD (if opts.retryOnDeadlock then 3 else 0)
  withTransactionLoop opts maxRetries cbs tm 0

/-! ## Connection Pool reconnection (connection-pool source) -/

inductive PoolEvent where
  | reconnectionAttempt (attempt : Nat) (delay : Nat)
  | reconnectionSuccess (attempts : Nat)
  | reconnectionFailed (retries : Nat)
deriving DecidableEq

/-- attemptReconnection: at retryCount ≥ maxRetries emit a single
failure event and stop; otherwise sleep retryDelay * 2^retryCount (when
exponential backoff is on, else retryDelay), emit the attempt event for
attempt number retryCount + 1, run a health check (`health retryCount`;
healthCheck never throws — it catches internally), emit the success
event on a healthy result, else recurse. -/
def attemptReconnection (maxRetries retryDelay : Nat) (expBackoff : Bool)
    (health : Nat → Bool) (retryCount : Nat) : List PoolEvent :=
  if maxRetries ≤ retryCount then [.reconnectionFailed retryCount]
  else
    let delay := if expBackoff then retryDelay * 2 ^ retryCount else retryDelay
    PoolEvent.reconnectionAttempt (retryCount + 1) delay ::
      (if health retryCount then [.reconnectionSuccess (retryCount + 1)]
       else attemptReconnection maxRetries retryDelay expBackoff health (retryCount + 1))
termination_by maxRetries - retryCount
decreasing_by omega

/-- ChangeTracker.getChangedFields: the recorded field paths of a
tracked entity (a copy of the Set; empty for an untracked key). -/
def ChangeTracker.getChangedFields (t : ChangeTracker) (entity : String) (id : Value) :
    List String :=
  match alGet t.trackedEntities (createKey entity id) with
  | some e => e.changedFields
  | none => []

/-- Well-formedness of identity-map states, satisfied by every state
reachable from a fresh map: registry keys are unique (JS Map keys are)
and every key object stored anywhere was allocated below the
allocation counter. -/
def IdentityMap.wf (m : IdentityMap) : Prop :=
  (m.keyRegistry.map Prod.fst).Nodup
    ∧ (∀ p ∈ m.maps, ∀ q ∈ p.2, q.1 < m.nextKeyObj)
    ∧ (∀ p ∈ m.keyRegistry, p.2 < m.nextKeyObj)

def Stmt.isDelete : Stmt → Bool
  | .deleteRow _ _ _ => true
  | _ => false

def Stmt.isUpdate : Stmt → Bool
  | .updateRow _ _ _ _ => true
  | _ => false

def Stmt.isInsert : Stmt → Bool
  | .insertRow _ _ _ => true
  | _ => false

/-- The statement an item of the commit plan issues, if any. -/
def okStmtOf : Except UowError (Option Stmt) → Option Stmt
  | .ok (some s) => some s
  | _ => none

/-! ### Concrete states used by witnesses and counterexamples -/

def userProfileData : Value :=
  .vcomp 1 false [("name", .vstr "John"), ("profile", .vcomp 2 false [("bio", .vstr "a")])]

def trackedUserTracker : ChangeTracker :=
  (ChangeTracker.empty.track "User" (.vnum 1) (.inst 0) userProfileData false).1

def userArrayData : Value :=
  .vcomp 3 false [("tags", .vcomp 4 true [("0", .vstr "x")])]

def trackedUserArrays : ChangeTracker :=
  (ChangeTracker.empty.track "User" (.vnum 7) (.inst 9) userArrayData false).1

def mdUser : EntityMetadata :=
  { entity := "User", table := "users", primaryKey := .single "id",
    columns := [("id", "id"), ("name", "name"), ("email", "email")] }

/-- A unit of work holding one pending update (User 1, name changed),
one pending delete (User 2) and one pending create (User 3), with a
connection bound. -/
def uowScenario : UnitOfWork :=
  let u := (UnitOfWork.make).registerEntity mdUser
  let u := (u.get "User" (.vnum 1)
    (some (.inst 0, .vcomp 1 false [("id", .vnum 1), ("name", .vstr "John")]))).1
  let u := (u.get "User" (.vnum 2)
    (some (.inst 1, .vcomp 2 false [("id", .vnum 2), ("name", .vstr "X")]))).1
  let u := (u.deleteEntity "User" (.vnum 2)).1
  let u := (u.create "User" (.inst 2) (.vcomp 3 false [("id", .vnum 3), ("name", .vstr "New")])).1
  let u := { u with changeTracker := u.changeTracker.proxyWrite "User" (.vnum 1) [] "name" (.vstr "Jane") }
  { u with hasConnection := true }

def uowRegistered : UnitOfWork := (UnitOfWork.make).registerEntity mdUser

def dataJohn : Value := .vcomp 1 false [("id", .vnum 1), ("name", .vstr "John")]

def dataJane : Value := .vcomp 2 false [("id", .vnum 1), ("name", .vstr "Jane")]

/-- Oracle failing the third issued query of a commit (index 2: the
UPDATE in the scenario above). -/
def failUpdateOracle : Nat → Bool := fun n => !(n == 2)

def allOkOracle : Nat → Bool := fun _ => true

def tmConnAll : TransactionManager :=
  { conn := fun _ => true, activeTransactions := [], nextTransactionId := 1, nextSavepointId := 1 }

def deadlockErr : JsError := { code := some "40P01", tag := 1 }

def uniqueViolationErr : JsError := { code := some "23505", tag := 2 }

def txWithSavepoints : TransactionContext :=
  { id := "tx_1", level := 0, isolationLevel := none,
    savepoints := ["a", "b", "c"], readOnly := false, isActive := true }

def tmWithSavepoints : TransactionManager :=
  { tmConnAll with activeTransactions := [("tx_1", txWithSavepoints)] }

/-! ## Supporting lemmas -/

theorem alGet_alSet_self {κ α : Type} [DecidableEq κ] (xs : List (κ × α)) (k : κ) (v : α) :
    alGet (alSet xs k v) k = some v := by
  induction xs with
  | nil => simp [alGet, alSet]
  | cons p rest ih =>
      by_cases h : p.1 = k
      · simp [alSet, alGet, h]
      · simp [alSet, alGet, h, ih]

theorem alGet_alSet_ne {κ α : Type} [DecidableEq κ] (xs : List (κ × α)) (k k' : κ) (v : α)
    (h : k' ≠ k) : alGet (alSet xs k v) k' = alGet xs k' := by
  have hkk : ¬k = k' := fun he => h he.symm
  induction xs with
  | nil =>
      simp only [alSet, alGet]
      rw [if_neg hkk]
  | cons p rest ih =>
      simp only [alSet]
      by_cases hp : p.1 = k
      · rw [if_pos hp]
        simp only [alGet]
        rw [if_neg hkk, if_neg (by rw [hp]; exact hkk)]
      · rw [if_neg hp]
        simp only [alGet, ih]

theorem alGet_mem {κ α : Type} [DecidableEq κ] {xs : List (κ × α)} {k : κ} {v : α}
    (h : alGet xs k = some v) : (k, v) ∈ xs := by
  induction xs with
  | nil => simp [alGet] at h
  | cons p rest ih =>
      by_cases hp : p.1 = k
      · simp only [alGet, hp, if_pos] at h
        rw [Option.some.injEq] at h
        subst h
        subst hp
        simp
      · simp only [alGet, hp, if_neg, ite_false] at h
        exact List.mem_cons_of_mem _ (ih h)

theorem mem_addField_of_mem {fs : List String} {f g : String} (h : f ∈ fs) :
    f ∈ addField fs g := by
  unfold addField
  split
  · exact h
  · exact List.mem_append_left _ h

theorem self_mem_addField (fs : List String) (f : String) : f ∈ addField fs f := by
  unfold addField
  split
  · assumption
  · exact List.mem_append_right _ (by simp)

theorem alGet_eq_none_of_not_mem {κ α : Type} [DecidableEq κ] {xs : List (κ × α)} {k : κ}
    (h : k ∉ xs.map Prod.fst) : alGet xs k = none := by
  induction xs with
  | nil => rfl
  | cons p rest ih =>
      simp only [List.map_cons, List.mem_cons] at h
      push_neg at h
      simp only [alGet]
      rw [if_neg (fun he => h.1 he.symm)]
      exact ih h.2

theorem mem_alSet {κ α : Type} [DecidableEq κ] {xs : List (κ × α)} {k : κ} {v : α} {p : κ × α}
    (h : p ∈ alSet xs k v) : p = (k, v) ∨ p ∈ xs := by
  induction xs with
  | nil => simpa [alSet] using h
  | cons q rest ih =>
      by_cases hq : q.1 = k
      · simp only [alSet, if_pos hq, List.mem_cons] at h
        rcases h with h | h
        · exact Or.inl h
        · exact Or.inr (List.mem_cons_of_mem _ h)
      · simp only [alSet, if_neg hq, List.mem_cons] at h
        rcases h with h | h
        · exact Or.inr (h ▸ List.mem_cons_self _ _)
        · rcases ih h with h' | h'
          · exact Or.inl h'
          · exact Or.inr (List.mem_cons_of_mem _ h')

theorem alSet_map_fst_nodup {κ α : Type} [DecidableEq κ] {xs : List (κ × α)} (k : κ) (v : α)
    (h : (xs.map Prod.fst).Nodup) : ((alSet xs k v).map Prod.fst).Nodup := by
  induction xs with
  | nil => simp [alSet]
  | cons q rest ih =>
      simp only [List.map_cons, List.nodup_cons] at h
      by_cases hq : q.1 = k
      · simp only [alSet, if_pos hq, List.map_cons, List.nodup_cons]
        exact ⟨hq ▸ h.1, h.2⟩
      · simp only [alSet, if_neg hq, List.map_cons, List.nodup_cons]
        refine ⟨fun hmem => ?_, ih h.2⟩
        rcases List.mem_map.mp hmem with ⟨p, hp, hpq⟩
        rcases mem_alSet hp with h' | h'
        · exact hq (hpq ▸ h' ▸ rfl)
        · exact h.1 (hpq ▸ List.mem_map_of_mem _ h')

theorem alErase_sublist {κ α : Type} [DecidableEq κ] (xs : List (κ × α)) (k : κ) :
    (alErase xs k).Sublist xs := by
  induction xs with
  | nil => simp [alErase]
  | cons p rest ih =>
      by_cases hp : p.1 = k
      · simp only [alErase, if_pos hp]
        exact List.sublist_cons_self p rest
      · simp only [alErase, if_neg hp]
        exact ih.cons₂ p

theorem alGet_alErase_self {κ α : Type} [DecidableEq κ] {xs : List (κ × α)} {k : κ}
    (h : (xs.map Prod.fst).Nodup) : alGet (alErase xs k) k = none := by
  induction xs with
  | nil => rfl
  | cons p rest ih =>
      obtain ⟨a, b⟩ := p
      simp only [List.map_cons, List.nodup_cons] at h
      by_cases hp : a = k
      · simp only [alErase, if_pos hp]
        exact alGet_eq_none_of_not_mem (hp ▸ h.1)
      · simp only [alErase, if_neg hp, alGet]
        exact ih h.2

/-- set preserves identity-map well-formedness. -/
theorem IdentityMap.wf_set (m : IdentityMap) (e : String) (id : Value) (r : Ref)
    (h : m.wf) : ((m.set e id r).1).wf := by
  obtain ⟨hreg, hmaps, hbound⟩ := h
  have hstep : ∀ (mp : List (String × List (Nat × Ref))) (next : Nat),
      (∀ p ∈ mp, ∀ q ∈ p.2, q.1 < next) → ∀ (nm : List (Nat × Ref)),
      (∀ q ∈ nm, q.1 < next) → ∀ p ∈ alSet mp e nm, ∀ q ∈ p.2, q.1 < next := by
    intro mp next hmp nm hnew p hp q hq
    rcases mem_alSet hp with h' | h'
    · rw [h'] at hq
      exact hnew q hq
    · exact hmp p h' q hq
  have hsetb : ∀ (map : List (Nat × Ref)) (keyObj next : Nat),
      (∀ q ∈ map, q.1 < next) → keyObj < next → ∀ q ∈ alSet map keyObj r, q.1 < next := by
    intro map keyObj next hmp hko q hq
    rcases mem_alSet hq with h' | h'
    · rw [h']
      exact hko
    · exact hmp q h'
  have hnil : ∀ next : Nat, ∀ q ∈ ([] : List (Nat × Ref)), q.1 < next := by
    intro next q hq
    simp at hq
  have hm1 : ∀ p ∈ alSet m.maps e ([] : List (Nat × Ref)), ∀ q ∈ p.2, q.1 < m.nextKeyObj :=
    hstep m.maps m.nextKeyObj hmaps [] (hnil _)
  have hweak : ∀ (l : List (String × List (Nat × Ref))) (next : Nat),
      (∀ p ∈ l, ∀ q ∈ p.2, q.1 < next) → ∀ p ∈ l, ∀ q ∈ p.2, q.1 < next + 1 := by
    intro l next hl p hp q hq
    exact Nat.lt_succ_of_lt (hl p hp q hq)
  have hbweak : ∀ p ∈ m.keyRegistry, p.2 < m.nextKeyObj + 1 := by
    intro p hp
    exact Nat.lt_succ_of_lt (hbound p hp)
  have hbnew : ∀ (key : String), ∀ p ∈ alSet m.keyRegistry key m.nextKeyObj,
      p.2 < m.nextKeyObj + 1 := by
    intro key p hp
    rcases mem_alSet hp with h' | h'
    · rw [h']
      exact Nat.lt_succ_self _
    · exact Nat.lt_succ_of_lt (hbound p h')
  unfold IdentityMap.set IdentityMap.getOrCreateKeyObject
  cases hk : createCompositeKey e id with
  | error msg =>
      cases halg : alGet m.maps e with
      | none =>
          simp only [halg, hk]
          exact ⟨hreg, hm1, hbound⟩
      | some map =>
          simp only [halg, hk]
          exact ⟨hreg, hmaps, hbound⟩
  | ok key =>
      cases halg : alGet m.maps e with
      | none =>
          cases hr : alGet m.keyRegistry key with
          | some keyObj =>
              simp only [halg, hk, hr, alGet_alSet_self, Option.getD_some, alGet]
              refine ⟨hreg, ?_, hbound⟩
              exact hstep _ _ hm1 _ (hsetb [] keyObj m.nextKeyObj (hnil _) (hbound _ (alGet_mem hr)))
          | none =>
              by_cases hw : m.enableWeakRefs
              · simp only [halg, hk, hr, hw, if_pos, alGet_alSet_self, Option.getD_some, alGet]
                refine ⟨alSet_map_fst_nodup key m.nextKeyObj hreg, ?_, hbnew key⟩
                exact hstep _ _ (hweak _ _ hm1) _
                  (hsetb [] m.nextKeyObj (m.nextKeyObj + 1) (hnil _) (Nat.lt_succ_self _))
              · simp only [halg, hk, hr, hw, if_neg, Bool.false_eq_true, if_false,
                  alGet_alSet_self, Option.getD_some, alGet]
                refine ⟨hreg, ?_, hbweak⟩
                exact hstep _ _ (hweak _ _ hm1) _
                  (hsetb [] m.nextKeyObj (m.nextKeyObj + 1) (hnil _) (Nat.lt_succ_self _))
      | some map =>
          have hmapb : ∀ q ∈ map, q.1 < m.nextKeyObj := hmaps _ (alGet_mem halg)
          cases hr : alGet m.keyRegistry key with
          | some keyObj =>
              simp only [halg, hk, hr, Option.getD_some]
              cases hmg : alGet map keyObj with
              | some existing =>
                  simp only [hmg]
                  exact ⟨hreg, hmaps, hbound⟩
              | none =>
                  simp only [hmg]
                  refine ⟨hreg, ?_, hbound⟩
                  exact hstep _ _ hmaps _
                    (hsetb map keyObj m.nextKeyObj hmapb (hbound _ (alGet_mem hr)))
          | none =>
              by_cases hw : m.enableWeakRefs
              · simp only [halg, hk, hr, hw, if_pos, Option.getD_some]
                cases hmg : alGet map m.nextKeyObj with
                | some existing =>
                    simp only [hmg]
                    exact ⟨alSet_map_fst_nodup key m.nextKeyObj hreg, hweak _ _ hmaps, hbnew key⟩
                | none =>
                    simp only [hmg]
                    refine ⟨alSet_map_fst_nodup key m.nextKeyObj hreg, ?_, hbnew key⟩
                    exact hstep _ _ (hweak _ _ hmaps) _
                      (hsetb map m.nextKeyObj (m.nextKeyObj + 1)
                        (fun q hq => Nat.lt_succ_of_lt (hmapb q hq)) (Nat.lt_succ_self _))
              · simp only [halg, hk, hr, hw, if_neg, Bool.false_eq_true, if_false, Option.getD_some]
                cases hmg : alGet map m.nextKeyObj with
                | some existing =>
                    simp only [hmg]
                    exact ⟨hreg, hweak _ _ hmaps, hbweak⟩
                | none =>
                    simp only [hmg]
                    refine ⟨hreg, ?_, hbweak⟩
                    exact hstep _ _ (hweak _ _ hmaps) _
                      (hsetb map m.nextKeyObj (m.nextKeyObj + 1)
                        (fun q hq => Nat.lt_succ_of_lt (hmapb q hq)) (Nat.lt_succ_self _))

/-- delete preserves identity-map well-formedness. -/
theorem IdentityMap.wf_delete (m : IdentityMap) (e : String) (id : Value)
    (h : m.wf) : ((m.delete e id).1).wf := by
  obtain ⟨hreg, hmaps, hbound⟩ := h
  unfold IdentityMap.delete IdentityMap.getKeyObject
  cases halg : alGet m.maps e with
  | none => exact ⟨hreg, hmaps, hbound⟩
  | some map =>
      cases hk : createCompositeKey e id with
      | error msg => simp only [halg, hk]; exact ⟨hreg, hmaps, hbound⟩
      | ok key =>
          cases hr : alGet m.keyRegistry key with
          | none => simp only [halg, hk, hr]; exact ⟨hreg, hmaps, hbound⟩
          | some keyObj =>
              simp only [halg, hk, hr, Except.toOption, Option.getD_some]
              refine ⟨?_, ?_, ?_⟩
              · exact hreg.sublist ((alErase_sublist m.keyRegistry key).map Prod.fst)
              · intro p hp q hq
                rcases mem_alSet hp with h' | h'
                · rw [h'] at hq
                  exact hmaps _ (alGet_mem halg) q ((alErase_sublist map keyObj).mem hq)
                · exact hmaps p h' q hq
              · intro p hp
                exact hbound p ((alErase_sublist m.keyRegistry _).mem hp)

/-- On a well-formed map with no entry for (e, id), set stores and
returns the supplied instance. -/
theorem IdentityMap.set_fresh (m : IdentityMap) (e : String) (id : Value) (r : Ref)
    (key : String) (hkey : createCompositeKey e id = .ok key)
    (hwf : m.wf) (h : m.get e id = .ok none) : (m.set e id r).2 = .ok r := by
  obtain ⟨hreg, hmaps, hbound⟩ := hwf
  unfold IdentityMap.get IdentityMap.getKeyObject at h
  unfold IdentityMap.set IdentityMap.getOrCreateKeyObject
  cases halg : alGet m.maps e with
  | none =>
      cases hk : createCompositeKey e id with
      | error msg => rw [hkey] at hk; cases hk
      | ok key =>
          cases hr : alGet m.keyRegistry key with
          | some keyObj => simp [halg, hk, hr, alGet_alSet_self, alGet]
          | none =>
              by_cases hw : m.enableWeakRefs <;>
                simp [halg, hk, hr, hw, alGet_alSet_self, alGet]
  | some map =>
      cases hk : createCompositeKey e id with
      | error msg => simp [halg, hk] at h
      | ok key =>
          cases hr : alGet m.keyRegistry key with
          | none =>
              have hfresh : alGet map m.nextKeyObj = none := by
                cases hmg : alGet map m.nextKeyObj with
                | none => rfl
                | some x =>
                    have := hmaps _ (alGet_mem halg) _ (alGet_mem hmg)
                    omega
              by_cases hw : m.enableWeakRefs <;>
                simp [halg, hk, hr, hw, hfresh]
          | some keyObj =>
              simp only [halg, hk, hr] at h
              cases hmg : alGet map keyObj with
              | some existing => simp [hmg] at h
              | none => simp [halg, hk, hr, hmg]

/-- A delete that did not throw leaves no entry for its key. -/
theorem IdentityMap.delete_get_none (m m' : IdentityMap) (e : String) (id : Value) (b : Bool)
    (hwf : m.wf) (h : m.delete e id = (m', .ok b)) : m'.get e id = .ok none := by
  obtain ⟨hreg, hmaps, hbound⟩ := hwf
  unfold IdentityMap.delete IdentityMap.getKeyObject at h
  cases halg : alGet m.maps e with
  | none =>
      simp only [halg] at h
      obtain ⟨hm, -⟩ := Prod.mk.injEq .. ▸ h
      subst hm
      unfold IdentityMap.get
      simp [halg]
  | some map =>
      cases hk : createCompositeKey e id with
      | error msg => simp [halg, hk] at h
      | ok key =>
          cases hr : alGet m.keyRegistry key with
          | none =>
              simp only [halg, hk, hr] at h
              obtain ⟨hm, -⟩ := Prod.mk.injEq .. ▸ h
              subst hm
              unfold IdentityMap.get IdentityMap.getKeyObject
              simp [halg, hk, hr]
          | some keyObj =>
              simp only [halg, hk, hr, Except.toOption, Option.getD_some] at h
              obtain ⟨hm, -⟩ := Prod.mk.injEq .. ▸ h
              subst hm
              unfold IdentityMap.get IdentityMap.getKeyObject
              simp only [alGet_alSet_self, hk, alGet_alErase_self hreg]

/-- The enableWeakRefs option is never modified by set. -/
theorem IdentityMap.set_weakRefs (m : IdentityMap) (e : String) (id : Value) (r : Ref) :
    ((m.set e id r).1).enableWeakRefs = m.enableWeakRefs := by
  unfold IdentityMap.set IdentityMap.getOrCreateKeyObject
  cases hk : createCompositeKey e id with
  | error msg =>
      cases halg : alGet m.maps e <;> simp [halg, hk]
  | ok key =>
      cases halg : alGet m.maps e with
      | none =>
          cases hreg : alGet m.keyRegistry key with
          | some keyObj => simp [halg, hk, hreg, alGet, alGet_alSet_self]
          | none =>
              by_cases hw : m.enableWeakRefs <;>
                simp [halg, hk, hreg, hw, alGet, alGet_alSet_self]
      | some map =>
          cases hreg : alGet m.keyRegistry key with
          | some keyObj =>
              cases hmg : alGet map keyObj <;> simp [halg, hk, hreg, hmg]
          | none =>
              by_cases hw : m.enableWeakRefs <;>
                cases hmg : alGet map m.nextKeyObj <;> simp [halg, hk, hreg, hw, hmg]

/-- The enableWeakRefs option is never modified by delete. -/
theorem IdentityMap.delete_weakRefs (m : IdentityMap) (e : String) (id : Value) :
    ((m.delete e id).1).enableWeakRefs = m.enableWeakRefs := by
  unfold IdentityMap.delete IdentityMap.getKeyObject
  cases halg : alGet m.maps e with
  | none => simp [halg]
  | some map =>
      cases hk : createCompositeKey e id with
      | error msg => simp [halg, hk]
      | ok key =>
          cases hreg : alGet m.keyRegistry key with
          | none => simp [halg, hk, hreg]
          | some keyObj => simp [halg, hk, hreg]

/-- A set that did not throw registered the entry under the composite
key (given weak refs are enabled), so get finds exactly the returned
instance. -/
theorem IdentityMap.get_after_set (m : IdentityMap) (e : String) (id : Value) (r : Ref)
    (m' : IdentityMap) (a : Ref) (hw : m.enableWeakRefs = true)
    (h : m.set e id r = (m', .ok a)) : m'.get e id = .ok (some a) := by
  unfold IdentityMap.set IdentityMap.getOrCreateKeyObject at h
  cases hk : createCompositeKey e id with
  | error msg =>
      cases halg : alGet m.maps e <;> simp [halg, hk] at h
  | ok key =>
      cases halg : alGet m.maps e with
      | none =>
          cases hreg : alGet m.keyRegistry key with
          | some keyObj =>
              simp only [halg, hk, hreg] at h
              simp only [alGet_alSet_self, Option.getD_some, alGet] at h
              obtain ⟨hm, ha⟩ := Prod.mk.injEq .. ▸ h
              rw [Except.ok.injEq] at ha
              subst hm ha
              unfold IdentityMap.get IdentityMap.getKeyObject
              simp [alGet_alSet_self, hk, hreg, alGet]
          | none =>
              simp only [halg, hk, hreg, hw, if_pos] at h
              simp only [alGet_alSet_self, Option.getD_some, alGet] at h
              obtain ⟨hm, ha⟩ := Prod.mk.injEq .. ▸ h
              rw [Except.ok.injEq] at ha
              subst hm ha
              unfold IdentityMap.get IdentityMap.getKeyObject
              simp [alGet_alSet_self, hk, alGet]
      | some map =>
          cases hreg : alGet m.keyRegistry key with
          | some keyObj =>
              simp only [halg, hk, hreg, Option.getD_some] at h
              cases hmg : alGet map keyObj with
              | some existing =>
                  simp only [hmg] at h
                  obtain ⟨hm, ha⟩ := Prod.mk.injEq .. ▸ h
                  rw [Except.ok.injEq] at ha
                  subst hm ha
                  unfold IdentityMap.get IdentityMap.getKeyObject
                  simp [halg, hk, hreg, hmg]
              | none =>
                  simp only [hmg] at h
                  obtain ⟨hm, ha⟩ := Prod.mk.injEq .. ▸ h
                  rw [Except.ok.injEq] at ha
                  subst hm ha
                  unfold IdentityMap.get IdentityMap.getKeyObject
                  simp [alGet_alSet_self, hk, hreg, hmg]
          | none =>
              simp only [halg, hk, hreg, hw, if_pos, Option.getD_some] at h
              cases hmg : alGet map m.nextKeyObj with
              | some existing =>
                  simp only [hmg] at h
                  obtain ⟨hm, ha⟩ := Prod.mk.injEq .. ▸ h
                  rw [Except.ok.injEq] at ha
                  subst hm ha
                  unfold IdentityMap.get IdentityMap.getKeyObject
                  simp [halg, hk, alGet_alSet_self, hmg]
              | none =>
                  simp only [hmg] at h
                  obtain ⟨hm, ha⟩ := Prod.mk.injEq .. ▸ h
                  rw [Except.ok.injEq] at ha
                  subst hm ha
                  unfold IdentityMap.get IdentityMap.getKeyObject
                  simp [alGet_alSet_self, hk, hmg]

/-- set on a key whose entry is already present returns the existing
instance and leaves the map unchanged — the identity guarantee. -/
theorem IdentityMap.set_stable (m : IdentityMap) (e : String) (id : Value) (r r2 : Ref)
    (h : m.get e id = .ok (some r)) : m.set e id r2 = (m, .ok r) := by
  unfold IdentityMap.get IdentityMap.getKeyObject at h
  cases halg : alGet m.maps e with
  | none => simp [halg] at h
  | some map =>
      cases hk : createCompositeKey e id with
      | error msg => simp [halg, hk] at h
      | ok key =>
          cases hreg : alGet m.keyRegistry key with
          | none => simp [halg, hk, hreg] at h
          | some keyObj =>
              simp only [halg, hk, hreg] at h
              rw [Except.ok.injEq] at h
              unfold IdentityMap.set IdentityMap.getOrCreateKeyObject
              simp [halg, hk, hreg, Option.getD, h]

/-- A set that returned without throwing had a valid composite key. -/
theorem IdentityMap.set_ok_key (m m' : IdentityMap) (e : String) (id : Value) (r a : Ref)
    (h : m.set e id r = (m', .ok a)) : ∃ key, createCompositeKey e id = .ok key := by
  unfold IdentityMap.set IdentityMap.getOrCreateKeyObject at h
  cases hk : createCompositeKey e id with
  | error msg =>
      cases halg : alGet m.maps e <;> simp [halg, hk] at h
  | ok key => exact ⟨key, rfl⟩

/-! ## Claim theorems -/

/-- C1 (amended): with weak references enabled — the constructor default,
and the only configuration UnitOfWork creates — registering twice under
the same (kind, id) returns the same instance reference and never
overwrites the stored instance: a second IdentityMap.set returns the
first call's instance and leaves the map unchanged, and a second
UnitOfWork.create (same extracted id, well-formed map) returns the first
call's instance with the second payload discarded. (With
enableWeakRefs: false the key registry is never populated and the claim
fails; see the counterexample.) -/
theorem identity_uniqueness_weakrefs :
    (∀ (m m1 : IdentityMap) (e : String) (id : Value) (r1 r2 a : Ref),
        m.enableWeakRefs = true → m.set e id r1 = (m1, .ok a) →
        m1.set e id r2 = (m1, .ok a))
    ∧ (∀ (u u1 : UnitOfWork) (e : String) (d1ref d2ref : Ref) (d1 d2 : Value)
          (md : EntityMetadata) (a : Ref),
        u.identityMap.enableWeakRefs = true → u.identityMap.wf →
        alGet u.entityMetadata e = some md →
        extractId d2 md = extractId d1 md →
        u.create e d1ref d1 = (u1, .ok a) →
        u1.create e d2ref d2 = (u1, .ok a)) := by
  constructor
  · intro m m1 e id r1 r2 a hw h
    exact IdentityMap.set_stable m1 e id a r2 (IdentityMap.get_after_set m e id r1 m1 a hw h)
  · intro u u1 e d1ref d2ref d1 d2 md a hw hwf hmd hid h
    by_cases hact : u.isActive
    case neg =>
      unfold UnitOfWork.create at h
      simp [hact] at h
    case pos =>
      unfold UnitOfWork.create at h
      simp only [hact, Bool.not_true, Bool.false_eq_true, if_false, hmd] at h
      cases hget : u.identityMap.get e (extractId d1 md) with
      | error msg => simp [hget] at h
      | ok o =>
          cases o with
          | some existing =>
              simp only [hget] at h
              obtain ⟨hu, ha⟩ := Prod.mk.injEq .. ▸ h
              rw [Except.ok.injEq] at ha
              subst hu ha
              unfold UnitOfWork.create
              simp [hact, hmd, hid, hget]
          | none =>
              rcases hset : u.identityMap.set e (extractId d1 md) d1ref with ⟨im1, res⟩
              simp only [hget, hset] at h
              cases res with
              | error msg => simp at h
              | ok r =>
                  have hw1 : im1.enableWeakRefs = true := by
                    have := IdentityMap.set_weakRefs u.identityMap e (extractId d1 md) d1ref
                    rw [hset] at this
                    rw [this, hw]
                  have hwf1 : im1.wf := by
                    have := IdentityMap.wf_set u.identityMap e (extractId d1 md) d1ref hwf
                    rw [hset] at this
                    exact this
                  obtain ⟨key, hkey⟩ :=
                    IdentityMap.set_ok_key u.identityMap im1 e (extractId d1 md) d1ref r hset
                  by_cases htr : u.enableChangeTracking
                  case pos =>
                      rcases htrack : u.changeTracker.track e (extractId d1 md) r d1 true with
                        ⟨ct1, tracked⟩
                      simp only [htr, if_true, htrack] at h
                      rcases hdel : im1.delete e (extractId d1 md) with ⟨im2, dres⟩
                      simp only [hdel] at h
                      cases dres with
                      | error msg => simp at h
                      | ok db =>
                          have hw2 : im2.enableWeakRefs = true := by
                            have := IdentityMap.delete_weakRefs im1 e (extractId d1 md)
                            rw [hdel] at this
                            rw [this, hw1]
                          have hwf2 : im2.wf := by
                            have := IdentityMap.wf_delete im1 e (extractId d1 md) hwf1
                            rw [hdel] at this
                            exact this
                          have hnone : im2.get e (extractId d1 md) = .ok none :=
                            IdentityMap.delete_get_none im1 im2 e (extractId d1 md) db hwf1 hdel
                          rcases hset2 : im2.set e (extractId d1 md) tracked with ⟨im3, sres⟩
                          simp only [hset2] at h
                          cases sres with
                          | error msg => simp at h
                          | ok r' =>
                              have hfr : (im2.set e (extractId d1 md) tracked).2 = .ok tracked :=
                                IdentityMap.set_fresh im2 e (extractId d1 md) tracked key hkey
                                  hwf2 hnone
                              rw [hset2] at hfr
                              dsimp only at hfr
                              rw [Except.ok.injEq] at hfr
                              have hrr : tracked = r' := hfr.symm
                              subst hrr
                              have hget3 : im3.get e (extractId d1 md) = .ok (some tracked) :=
                                IdentityMap.get_after_set im2 e (extractId d1 md) tracked im3
                                  tracked hw2 hset2
                              dsimp only at h
                              obtain ⟨hu, ha⟩ := Prod.mk.injEq .. ▸ h
                              rw [Except.ok.injEq] at ha
                              subst ha
                              subst hu
                              unfold UnitOfWork.create
                              simp [hact, hmd, hid, hget3]
                  case neg =>
                      simp only [htr, Bool.false_eq_true, if_false] at h
                      obtain ⟨hu, ha⟩ := Prod.mk.injEq .. ▸ h
                      rw [Except.ok.injEq] at ha
                      subst ha
                      subst hu
                      have hget1 : im1.get e (extractId d1 md) = .ok (some r) :=
                        IdentityMap.get_after_set u.identityMap e (extractId d1 md) d1ref im1
                          r hw hset
                      unfold UnitOfWork.create
                      simp [hact, hmd, hid, hget1]

/-- C1 as stated is false for an identity map configured with
enableWeakRefs: false: the key registry is never populated, so a second
set under the same (kind, id) stores under a fresh key object and
returns the second instance instead of the first. -/
theorem identity_uniqueness_counterexample :
    (((IdentityMap.empty false).set "User" (.vnum 1) (.inst 0)).2 = .ok (.inst 0))
    ∧ ((((IdentityMap.empty false).set "User" (.vnum 1) (.inst 0)).1.set "User"
          (.vnum 1) (.inst 1)).2 = .ok (.inst 1))
    ∧ Ref.inst 1 ≠ Ref.inst 0 :=
  ⟨rfl, rfl, by decide⟩

theorem identity_uniqueness_witness :
    (((IdentityMap.empty).set "User" (.vnum 1) (.inst 0)).1.set "User" (.vnum 1) (.inst 5)
      = (((IdentityMap.empty).set "User" (.vnum 1) (.inst 0)).1, .ok (.inst 0)))
    ∧ ((uowRegistered.create "User" (.inst 0) dataJohn).1.create "User" (.inst 1) dataJane
        = ((uowRegistered.create "User" (.inst 0) dataJohn).1, .ok (.proxy 0))) := by
  constructor
  · exact identity_uniqueness_weakrefs.1 IdentityMap.empty _ "User" (.vnum 1)
      (.inst 0) (.inst 5) (.inst 0) rfl rfl
  · refine identity_uniqueness_weakrefs.2 uowRegistered _ "User" (.inst 0) (.inst 1)
      dataJohn dataJane mdUser (.proxy 0) rfl ?_ rfl rfl rfl
    refine ⟨?_, ?_, ?_⟩ <;>
      simp [uowRegistered, UnitOfWork.make, UnitOfWork.registerEntity, IdentityMap.empty]

/-- C7 (amended): a null id is rejected with an InvalidKey error by set
always (though the per-kind map is still created first, as a surviving
side effect); get, has and delete reject a null id only when the kind
already has a per-kind map — with no map for the kind they
short-circuit to absent/false without validating the id. -/
theorem null_key_rejection :
    (∀ (m : IdentityMap) (e : String) (r : Ref),
        (m.set e .vnull r).2 = .error ("Invalid ID for entity " ++ e ++ ": null"))
    ∧ (∀ (m : IdentityMap) (e : String), alGet m.maps e = none →
        m.get e .vnull = .ok none ∧ m.has e .vnull = .ok false
          ∧ m.delete e .vnull = (m, .ok false))
    ∧ (∀ (m : IdentityMap) (e : String) (map : List (Nat × Ref)), alGet m.maps e = some map →
        m.get e .vnull = .error ("Invalid ID for entity " ++ e ++ ": null")
          ∧ m.has e .vnull = .error ("Invalid ID for entity " ++ e ++ ": null")
          ∧ m.delete e .vnull = (m, .error ("Invalid ID for entity " ++ e ++ ": null"))) := by
  refine ⟨?_, ?_, ?_⟩
  · intro m e r
    unfold IdentityMap.set IdentityMap.getOrCreateKeyObject
    cases halg : alGet m.maps e <;> simp [halg, createCompositeKey]
  · intro m e h
    unfold IdentityMap.get IdentityMap.has IdentityMap.delete
    simp [h]
  · intro m e map h
    unfold IdentityMap.get IdentityMap.has IdentityMap.delete IdentityMap.getKeyObject
    simp [h, createCompositeKey]

/-- C7 as stated is false: on a fresh identity map (no entity of the
kind stored before), get with a null id reports absent instead of
failing with an InvalidKey error. -/
theorem null_key_rejection_counterexample :
    (IdentityMap.empty).get "User" .vnull = .ok none
    ∧ ∀ msg : String, (Except.ok none : Except String (Option Ref)) ≠ .error msg :=
  ⟨rfl, fun _ h => by cases h⟩

theorem null_key_rejection_witness :
    ((IdentityMap.empty).set "User" .vnull (.inst 0)).2
        = .error ("Invalid ID for entity " ++ "User" ++ ": null")
    ∧ (IdentityMap.empty).get "User" .vnull = .ok none
    ∧ (((IdentityMap.empty).set "User" .vnull (.inst 0)).1).get "User" .vnull
        = .error ("Invalid ID for entity " ++ "User" ++ ": null") := by
  refine ⟨null_key_rejection.1 IdentityMap.empty "User" (.inst 0), ?_, ?_⟩
  · exact (null_key_rejection.2.1 IdentityMap.empty "User" rfl).1
  · exact (null_key_rejection.2.2 (((IdentityMap.empty).set "User" .vnull (.inst 0)).1)
      "User" [] rfl).1

/-- A write reaching a nested object through a nonempty access chain
records the dotted chain of the OWNING object, unconditionally (no
value comparison in the nested set trap, and the written property name
is not part of the recorded path). -/
theorem getChangedFields_proxyWrite_nested (t : ChangeTracker) (e : String) (id : Value)
    (entry : TrackedEntity) (q : String) (qs : List String) (p : String) (v : Value)
    (hentry : alGet t.trackedEntities (createKey e id) = some entry) :
    (t.proxyWrite e id (q :: qs) p v).getChangedFields e id
      = addField entry.changedFields (String.intercalate "." (q :: qs)) := by
  unfold ChangeTracker.proxyWrite ChangeTracker.modifyEntry ChangeTracker.getChangedFields
  simp [hentry, alGet_alSet_self]

/-- A deletion reaching a nested object likewise records the owning
chain unconditionally. -/
theorem getChangedFields_proxyDelete_nested (t : ChangeTracker) (e : String) (id : Value)
    (entry : TrackedEntity) (q : String) (qs : List String) (p : String)
    (hentry : alGet t.trackedEntities (createKey e id) = some entry) :
    (t.proxyDelete e id (q :: qs) p).getChangedFields e id
      = addField entry.changedFields (String.intercalate "." (q :: qs)) := by
  unfold ChangeTracker.proxyDelete ChangeTracker.modifyEntry ChangeTracker.getChangedFields
  simp [hentry, alGet_alSet_self]

/-- An in-place mutating array method records the array's own access
path. -/
theorem getChangedFields_arrayMutate (t : ChangeTracker) (e : String) (id : Value)
    (entry : TrackedEntity) (chain : List String) (method : String)
    (f : List (String × Value) → List (String × Value)) (oid : Nat)
    (fields : List (String × Value))
    (hentry : alGet t.trackedEntities (createKey e id) = some entry)
    (hpath : getPath entry.data chain = some (.vcomp oid true fields))
    (hmut : method ∈ mutatingArrayMethods) :
    (t.proxyArrayMutate e id chain method f).getChangedFields e id
      = addField entry.changedFields (String.intercalate "." chain) := by
  unfold ChangeTracker.proxyArrayMutate ChangeTracker.modifyEntry ChangeTracker.getChangedFields
  simp [hentry, hpath, hmut, alGet_alSet_self]

/-- proxyWrite never removes a recorded path. -/
theorem getChangedFields_mono_write (t : ChangeTracker) (e : String) (id : Value)
    (chain : List String) (p : String) (v : Value) (f : String)
    (h : f ∈ t.getChangedFields e id) :
    f ∈ (t.proxyWrite e id chain p v).getChangedFields e id := by
  unfold ChangeTracker.getChangedFields at *
  unfold ChangeTracker.proxyWrite ChangeTracker.modifyEntry
  cases hentry : alGet t.trackedEntities (createKey e id) with
  | none =>
      simp only [hentry]
      rw [hentry] at h
      exact h
  | some entry =>
      rw [hentry] at h
      cases chain with
      | nil =>
          simp only [hentry, alGet_alSet_self]
          cases hg : getField entry.data p with
          | none => simp [hg]; exact mem_addField_of_mem h
          | some old =>
              by_cases he : jsEq old v = true
              · simp [hg, he]; exact h
              · simp only [hg]
                rw [if_neg he]
                exact mem_addField_of_mem h
      | cons q qs =>
          simp only [hentry, alGet_alSet_self]
          exact mem_addField_of_mem h

/-- proxyDelete never removes a recorded path. -/
theorem getChangedFields_mono_delete (t : ChangeTracker) (e : String) (id : Value)
    (chain : List String) (p : String) (f : String)
    (h : f ∈ t.getChangedFields e id) :
    f ∈ (t.proxyDelete e id chain p).getChangedFields e id := by
  unfold ChangeTracker.getChangedFields at *
  unfold ChangeTracker.proxyDelete ChangeTracker.modifyEntry
  cases hentry : alGet t.trackedEntities (createKey e id) with
  | none =>
      simp only [hentry]
      rw [hentry] at h
      exact h
  | some entry =>
      rw [hentry] at h
      cases chain with
      | nil =>
          simp only [hentry, alGet_alSet_self]
          exact mem_addField_of_mem h
      | cons q qs =>
          simp only [hentry, alGet_alSet_self]
          exact mem_addField_of_mem h

/-- proxyArrayMutate never removes a recorded path. -/
theorem getChangedFields_mono_array (t : ChangeTracker) (e : String) (id : Value)
    (chain : List String) (method : String)
    (g : List (String × Value) → List (String × Value)) (f : String)
    (h : f ∈ t.getChangedFields e id) :
    f ∈ (t.proxyArrayMutate e id chain method g).getChangedFields e id := by
  unfold ChangeTracker.getChangedFields at *
  unfold ChangeTracker.proxyArrayMutate ChangeTracker.modifyEntry
  cases hentry : alGet t.trackedEntities (createKey e id) with
  | none =>
      simp only [hentry]
      rw [hentry] at h
      exact h
  | some entry =>
      rw [hentry] at h
      cases hp : getPath entry.data chain with
      | none => simp only [hentry, hp, alGet_alSet_self]; exact h
      | some val =>
          cases val with
          | vcomp oid isArr fields =>
              cases isArr with
              | true =>
                  by_cases hm : method ∈ mutatingArrayMethods
                  · simp only [hentry, hp, hm, if_pos, alGet_alSet_self]
                    exact mem_addField_of_mem h
                  · simp only [hentry, hp, alGet_alSet_self]
                    rw [if_neg hm]
                    exact h
              | false => simp only [hentry, hp, alGet_alSet_self]; exact h
          | vnull => simp only [hentry, hp, alGet_alSet_self]; exact h
          | vbool b => simp only [hentry, hp, alGet_alSet_self]; exact h
          | vnum n => simp only [hentry, hp, alGet_alSet_self]; exact h
          | vstr s => simp only [hentry, hp, alGet_alSet_self]; exact h

/-- C4 (amended): change recording is monotonic within a baseline epoch
and top-level writes are value-compared, but nested writes are not:
(1) a top-level write of a value === the current one records nothing;
(2) a top-level write of a differing (or new) value records the field;
(3) a write through a nested object records the owning dotted path
unconditionally — even when the written value equals the current one
(deviation from the claim as stated);
(4) no write, deletion or array mutation ever removes a recorded path;
(5) resetChanges clears the recorded set (for a live entry). -/
theorem monotonic_change_detection :
    (∀ (t : ChangeTracker) (e : String) (id : Value) (entry : TrackedEntity)
        (p : String) (v old : Value),
        alGet t.trackedEntities (createKey e id) = some entry →
        getField entry.data p = some old → jsEq old v = true →
        (t.proxyWrite e id [] p v).getChangedFields e id = entry.changedFields)
    ∧ (∀ (t : ChangeTracker) (e : String) (id : Value) (entry : TrackedEntity)
          (p : String) (v : Value),
        alGet t.trackedEntities (createKey e id) = some entry →
        (getField entry.data p = none ∨ ∃ old, getField entry.data p = some old
            ∧ jsEq old v = false) →
        p ∈ (t.proxyWrite e id [] p v).getChangedFields e id)
    ∧ (∀ (t : ChangeTracker) (e : String) (id : Value) (entry : TrackedEntity)
          (q : String) (qs : List String) (p : String) (v : Value),
        alGet t.trackedEntities (createKey e id) = some entry →
        (t.proxyWrite e id (q :: qs) p v).getChangedFields e id
          = addField entry.changedFields (String.intercalate "." (q :: qs)))
    ∧ (∀ (t : ChangeTracker) (e : String) (id : Value) (chain : List String)
          (p : String) (v : Value) (method : String)
          (g : List (String × Value) → List (String × Value)) (f : String),
        f ∈ t.getChangedFields e id →
        f ∈ (t.proxyWrite e id chain p v).getChangedFields e id
          ∧ f ∈ (t.proxyDelete e id chain p).getChangedFields e id
          ∧ f ∈ (t.proxyArrayMutate e id chain method g).getChangedFields e id)
    ∧ (∀ (t : ChangeTracker) (e : String) (id : Value) (entry : TrackedEntity),
        alGet t.trackedEntities (createKey e id) = some entry →
        entry.isDeleted = false →
        (t.resetChanges e id).getChangedFields e id = []) := by
  refine ⟨?_, ?_, ?_, ?_, ?_⟩
  · intro t e id entry p v old hentry hold heq
    unfold ChangeTracker.proxyWrite ChangeTracker.modifyEntry ChangeTracker.getChangedFields
    simp [hentry, hold, heq, alGet_alSet_self]
  · intro t e id entry p v hentry hdiff
    unfold ChangeTracker.proxyWrite ChangeTracker.modifyEntry ChangeTracker.getChangedFields
    rcases hdiff with hnone | ⟨old, hold, hne⟩
    · simp [hentry, hnone, alGet_alSet_self]
      exact self_mem_addField _ _
    · have hne' : ¬jsEq old v = true := fun hx => by rw [hx] at hne; cases hne
      simp only [hentry, hold, alGet_alSet_self]
      rw [if_neg hne']
      exact self_mem_addField _ _
  · intro t e id entry q qs p v hentry
    exact getChangedFields_proxyWrite_nested t e id entry q qs p v hentry
  · intro t e id chain p v method g f h
    exact ⟨getChangedFields_mono_write t e id chain p v f h,
           getChangedFields_mono_delete t e id chain p f h,
           getChangedFields_mono_array t e id chain method g f h⟩
  · intro t e id entry hentry hdel
    unfold ChangeTracker.resetChanges ChangeTracker.getChangedFields
    simp [hentry, hdel, alGet_alSet_self]

/-- C4 as stated is false: on a tracked User whose profile.bio currently
is "a", writing "a" again through the nested proxy (a value identical
to the current one) still adds a path ("profile") to changedFields. -/
theorem monotonic_change_detection_counterexample :
    getPath userProfileData ["profile", "bio"] = some (.vstr "a")
    ∧ trackedUserTracker.getChangedFields "User" (.vnum 1) = []
    ∧ (trackedUserTracker.proxyWrite "User" (.vnum 1) ["profile"] "bio"
        (.vstr "a")).getChangedFields "User" (.vnum 1) = ["profile"] :=
  ⟨rfl, rfl, rfl⟩

theorem monotonic_change_detection_witness :
    ((trackedUserTracker.proxyWrite "User" (.vnum 1) [] "name"
        (.vstr "John")).getChangedFields "User" (.vnum 1) = [])
    ∧ "name" ∈ ((trackedUserTracker.proxyWrite "User" (.vnum 1) [] "name"
        (.vstr "Jane")).getChangedFields "User" (.vnum 1))
    ∧ ((trackedUserTracker.resetChanges "User" (.vnum 1)).getChangedFields "User" (.vnum 1)
        = []) := by
  refine ⟨?_, ?_, ?_⟩
  · exact monotonic_change_detection.1 trackedUserTracker "User" (.vnum 1) _ "name"
      (.vstr "John") (.vstr "John") rfl rfl rfl
  · exact monotonic_change_detection.2.1 trackedUserTracker "User" (.vnum 1)
      { entity := "User", id := .vnum 1, dataRef := .inst 0, proxyRef := .proxy 0,
        data := userProfileData, originalData := userProfileData, isNew := false,
        isDeleted := false, changedFields := [] } "name" (.vstr "Jane") rfl
      (Or.inr ⟨.vstr "John", rfl, rfl⟩)
  · exact monotonic_change_detection.2.2.2.2 trackedUserTracker "User" (.vnum 1)
      { entity := "User", id := .vnum 1, dataRef := .inst 0, proxyRef := .proxy 0,
        data := userProfileData, originalData := userProfileData, isNew := false,
        isDeleted := false, changedFields := [] } rfl rfl

/-- C6 (amended): the path recorded for a write or deletion on a nested
object is the dotted access chain of the OWNING object (the chain that
reached the object whose property is written), not the full chain
including the written property; in-place mutating array methods record
the array's own access path, as claimed. -/
theorem nested_path_granularity :
    (∀ (t : ChangeTracker) (e : String) (id : Value) (entry : TrackedEntity)
        (q : String) (qs : List String) (p : String) (v : Value),
        alGet t.trackedEntities (createKey e id) = some entry →
        (t.proxyWrite e id (q :: qs) p v).getChangedFields e id
          = addField entry.changedFields (String.intercalate "." (q :: qs)))
    ∧ (∀ (t : ChangeTracker) (e : String) (id : Value) (entry : TrackedEntity)
          (q : String) (qs : List String) (p : String),
        alGet t.trackedEntities (createKey e id) = some entry →
        (t.proxyDelete e id (q :: qs) p).getChangedFields e id
          = addField entry.changedFields (String.intercalate "." (q :: qs)))
    ∧ (∀ (t : ChangeTracker) (e : String) (id : Value) (entry : TrackedEntity)
          (chain : List String) (method : String)
          (f : List (String × Value) → List (String × Value)) (oid : Nat)
          (fields : List (String × Value)),
        alGet t.trackedEntities (createKey e id) = some entry →
        getPath entry.data chain = some (.vcomp oid true fields) →
        method ∈ mutatingArrayMethods →
        (t.proxyArrayMutate e id chain method f).getChangedFields e id
          = addField entry.changedFields (String.intercalate "." chain)) := by
  refine ⟨?_, ?_, ?_⟩
  · intro t e id entry q qs p v hentry
    exact getChangedFields_proxyWrite_nested t e id entry q qs p v hentry
  · intro t e id entry q qs p hentry
    exact getChangedFields_proxyDelete_nested t e id entry q qs p hentry
  · intro t e id entry chain method f oid fields hentry hpath hmut
    exact getChangedFields_arrayMutate t e id entry chain method f oid fields hentry hpath hmut

/-- C6 as stated is false: writing wrapped.profile.bio records
'profile', not the claimed full chain 'profile.bio'. -/
theorem nested_path_granularity_counterexample :
    (trackedUserTracker.proxyWrite "User" (.vnum 1) ["profile"] "bio"
        (.vstr "b")).getChangedFields "User" (.vnum 1) = ["profile"]
    ∧ "profile.bio" ∉ ["profile"] :=
  ⟨rfl, by decide⟩

theorem nested_path_granularity_witness :
    ((trackedUserTracker.proxyWrite "User" (.vnum 1) ["profile"] "bio"
        (.vstr "b")).getChangedFields "User" (.vnum 1) = addField [] "profile")
    ∧ ((trackedUserArrays.proxyArrayMutate "User" (.vnum 7) ["tags"] "push"
        (fun l => l ++ [("1", .vstr "y")])).getChangedFields "User" (.vnum 7)
        = addField [] "tags") := by
  constructor
  · exact nested_path_granularity.1 trackedUserTracker "User" (.vnum 1)
      { entity := "User", id := .vnum 1, dataRef := .inst 0, proxyRef := .proxy 0,
        data := userProfileData, originalData := userProfileData, isNew := false,
        isDeleted := false, changedFields := [] } "profile" [] "bio" (.vstr "b") rfl
  · exact nested_path_granularity.2.2 trackedUserArrays "User" (.vnum 7)
      { entity := "User", id := .vnum 7, dataRef := .inst 9, proxyRef := .proxy 0,
        data := userArrayData, originalData := userArrayData, isNew := false,
        isDeleted := false, changedFields := [] } ["tags"] "push"
      (fun l => l ++ [("1", .vstr "y")]) 4 [("0", .vstr "x")] rfl rfl (by decide)

theorem getLast?_append_single {α : Type} (l : List α) (y : α) :
    (l ++ [y]).getLast? = some y := by
  induction l with
  | nil => rfl
  | cons x xs ih =>
      rw [List.cons_append]
      cases hxs : xs ++ [y] with
      | nil => exact absurd hxs (by simp)
      | cons z zs =>
          rw [List.getLast?_cons_cons]
          rw [← hxs, ih]

/-- A run that reported no error issued exactly the statements the items
carry, in order. -/
theorem runItems_none_stmts (oracle : Nat → Bool) :
    ∀ (items : List (Except UowError (Option Stmt))) (idx idx' : Nat) (stmts : List Stmt),
    runItems oracle idx items = (idx', stmts, none) → stmts = items.filterMap okStmtOf := by
  intro items
  induction items with
  | nil =>
      intro idx idx' stmts h
      unfold runItems at h
      obtain ⟨-, h2⟩ := Prod.mk.injEq .. ▸ h
      obtain ⟨h3, -⟩ := Prod.mk.injEq .. ▸ h2
      simp [← h3]
  | cons item rest ih =>
      intro idx idx' stmts h
      unfold runItems at h
      match item with
      | .error e =>
          simp at h
      | .ok none =>
          simp only at h
          rw [List.filterMap_cons]
          exact ih idx idx' stmts h
      | .ok (some s) =>
          simp only at h
          by_cases ho : oracle idx
          · rw [if_pos ho] at h
            rcases hrun : runItems oracle (idx + 1) rest with ⟨idx2, stmts2, err2⟩
            rw [hrun] at h
            obtain ⟨-, h2⟩ := Prod.mk.injEq .. ▸ h
            obtain ⟨h3, h4⟩ := Prod.mk.injEq .. ▸ h2
            subst h4
            rw [List.filterMap_cons]
            simp only [okStmtOf]
            rw [← h3, ih (idx + 1) idx2 stmts2 hrun]
          · rw [if_neg ho] at h
            simp at h
  

/-- A run that reported no error contains no build-error item. -/
theorem runItems_none_no_error (oracle : Nat → Bool) :
    ∀ (items : List (Except UowError (Option Stmt))) (idx idx' : Nat) (stmts : List Stmt),
    runItems oracle idx items = (idx', stmts, none) →
    ∀ it ∈ items, ∀ e, it ≠ .error e := by
  intro items
  induction items with
  | nil =>
      intro idx idx' stmts h it hit
      simp at hit
  | cons item rest ih =>
      intro idx idx' stmts h it hit e
      unfold runItems at h
      match item with
      | .error e' => simp at h
      | .ok none =>
          simp only at h
          rcases List.mem_cons.mp hit with h' | h'
          · subst h'; simp
          · exact ih idx idx' stmts h it h' e
      | .ok (some s) =>
          simp only at h
          by_cases ho : oracle idx
          · rw [if_pos ho] at h
            rcases hrun : runItems oracle (idx + 1) rest with ⟨idx2, stmts2, err2⟩
            rw [hrun] at h
            obtain ⟨-, h2⟩ := Prod.mk.injEq .. ▸ h
            obtain ⟨-, h4⟩ := Prod.mk.injEq .. ▸ h2
            have herr : err2 = none := h4
            rcases List.mem_cons.mp hit with h' | h'
            · subst h'; simp
            · exact ih (idx + 1) idx2 stmts2 (by rw [hrun, herr]) it h' e
          · rw [if_neg ho] at h
            simp at h

/-- When a run fails on an issued statement, that statement is among the
issued ones (items themselves never carry query failures). -/
theorem runItems_error_mem (oracle : Nat → Bool) :
    ∀ (items : List (Except UowError (Option Stmt))) (idx idx' : Nat) (stmts : List Stmt)
      (er : UowError),
    (∀ it ∈ items, ∀ s, it ≠ .error (.queryFailed s)) →
    runItems oracle idx items = (idx', stmts, some er) →
    ∀ s, er = .queryFailed s → s ∈ stmts := by
  intro items
  induction items with
  | nil =>
      intro idx idx' stmts er hsafe h
      unfold runItems at h
      simp at h
  | cons item rest ih =>
      intro idx idx' stmts er hsafe h s hs
      unfold runItems at h
      match item with
      | .error e' =>
          simp only at h
          obtain ⟨-, h2⟩ := Prod.mk.injEq .. ▸ h
          obtain ⟨-, h4⟩ := Prod.mk.injEq .. ▸ h2
          rw [Option.some.injEq] at h4
          subst h4
          subst hs
          exact absurd rfl (hsafe _ (List.mem_cons_self _ _) s)
      | .ok none =>
          simp only at h
          exact ih idx idx' stmts er (fun it hit => hsafe it (List.mem_cons_of_mem _ hit)) h s hs
      | .ok (some s') =>
          simp only at h
          by_cases ho : oracle idx
          · rw [if_pos ho] at h
            rcases hrun : runItems oracle (idx + 1) rest with ⟨idx2, stmts2, err2⟩
            rw [hrun] at h
            obtain ⟨-, h2⟩ := Prod.mk.injEq .. ▸ h
            obtain ⟨h3, h4⟩ := Prod.mk.injEq .. ▸ h2
            subst h3
            have herr : err2 = some er := h4
            have := ih (idx + 1) idx2 stmts2 er
              (fun it hit => hsafe it (List.mem_cons_of_mem _ hit))
              (by rw [hrun, herr]) s hs
            exact List.mem_cons_of_mem _ this
          · rw [if_neg ho] at h
            obtain ⟨-, h2⟩ := Prod.mk.injEq .. ▸ h
            obtain ⟨h3, h4⟩ := Prod.mk.injEq .. ▸ h2
            rw [Option.some.injEq] at h4
            rw [hs] at h4
            rw [UowError.queryFailed.injEq] at h4
            rw [← h3, h4]
            simp
            

/-- buildStmtFor only fails with a missing-metadata error. -/
theorem buildStmtFor_error (u : UnitOfWork) (c : EntityChange) (er : UowError)
    (h : buildStmtFor u c = .error er) : ∃ ent, er = .noMetadata ent := by
  unfold buildStmtFor at h
  cases hmd : alGet u.entityMetadata c.entity with
  | none =>
      rw [hmd] at h
      rw [Except.error.injEq] at h
      exact ⟨c.entity, h.symm⟩
  | some md =>
      rw [hmd] at h
      cases htype : c.type <;> rw [htype] at h <;> simp at h

/-- Commit-plan items never carry query-failure errors. -/
theorem commitItems_safe (u : UnitOfWork) :
    ∀ it ∈ commitItems u, ∀ s, it ≠ .error (.queryFailed s) := by
  intro it hit s hcontra
  unfold commitItems at hit
  rcases List.mem_map.mp hit with ⟨c, -, hbuild⟩
  rw [hcontra] at hbuild
  obtain ⟨ent, hent⟩ := buildStmtFor_error u c (.queryFailed s) hbuild
  cases hent

/-- C2 (confirmed): whenever a commit attempt fails after starting its
transaction, a ROLLBACK is the last statement issued on the connection,
the unit of work's state is left exactly as it was — so getChanges and
hasChanges still report the pending changes and commit can be retried —
and the rejection error names an issued statement whenever it is a
query failure. -/
theorem rollback_atomicity (u : UnitOfWork) (oracle : Nat → Bool) (u' : UnitOfWork)
    (stmts : List Stmt) (e : UowError)
    (hact : u.isActive = true) (hconn : u.hasConnection = true)
    (h : u.commit oracle = (u', stmts, .error e)) :
    u' = u ∧ stmts.getLast? = some .rollbackTx
      ∧ u'.getChanges = u.getChanges ∧ u'.hasChanges = u.hasChanges
      ∧ (∀ s, e = .queryFailed s → s ∈ stmts) := by
  unfold UnitOfWork.commit at h
  rw [hact, hconn] at h
  simp only [Bool.not_true, Bool.false_eq_true, if_false] at h
  split at h
  case isTrue hemp => simp at h
  case isFalse hemp =>
    split at h
    case isTrue h0 =>
      split at h
      case isTrue h1 =>
        obtain ⟨hu, h2⟩ := Prod.mk.injEq .. ▸ h
        obtain ⟨hst, herr⟩ := Prod.mk.injEq .. ▸ h2
        rw [Except.error.injEq] at herr
        subst hu
        subst hst
        subst herr
        refine ⟨rfl, rfl, rfl, rfl, ?_⟩
        intro s hs
        rw [UowError.queryFailed.injEq] at hs
        subst hs
        simp
      case isFalse h1 =>
        obtain ⟨hu, h2⟩ := Prod.mk.injEq .. ▸ h
        obtain ⟨hst, herr⟩ := Prod.mk.injEq .. ▸ h2
        rw [Except.error.injEq] at herr
        subst hu
        subst hst
        subst herr
        refine ⟨rfl, rfl, rfl, rfl, ?_⟩
        intro s hs
        rw [UowError.queryFailed.injEq] at hs
        subst hs
        simp
    case isFalse h0 =>
      rcases hrun : runItems oracle 1 (commitItems u) with ⟨idx, stmts0, err⟩
      rw [hrun] at h
      cases err with
      | some e0 =>
          dsimp only at h
          split at h
          case isTrue h1 =>
            obtain ⟨hu, h2⟩ := Prod.mk.injEq .. ▸ h
            obtain ⟨hst, herr⟩ := Prod.mk.injEq .. ▸ h2
            rw [Except.error.injEq] at herr
            subst hu
            subst herr
            refine ⟨rfl, ?_, rfl, rfl, ?_⟩
            · rw [← hst]
              rw [show Stmt.beginTx :: stmts0 ++ [Stmt.rollbackTx]
                    = (Stmt.beginTx :: stmts0) ++ [Stmt.rollbackTx] from rfl]
              exact getLast?_append_single _ _
            · intro s hs
              have := runItems_error_mem oracle (commitItems u) 1 idx stmts0 e0
                (commitItems_safe u) hrun s hs
              rw [← hst]
              exact List.mem_cons_of_mem _ (List.mem_append_left _ this)
          case isFalse h1 =>
            obtain ⟨hu, h2⟩ := Prod.mk.injEq .. ▸ h
            obtain ⟨hst, herr⟩ := Prod.mk.injEq .. ▸ h2
            rw [Except.error.injEq] at herr
            subst hu
            subst herr
            refine ⟨rfl, ?_, rfl, rfl, ?_⟩
            · rw [← hst]
              rw [show Stmt.beginTx :: stmts0 ++ [Stmt.rollbackTx]
                    = (Stmt.beginTx :: stmts0) ++ [Stmt.rollbackTx] from rfl]
              exact getLast?_append_single _ _
            · intro s hs
              rw [UowError.queryFailed.injEq] at hs
              subst hs
              rw [← hst]
              exact List.mem_cons_of_mem _ (List.mem_append_right _ (by simp))
      | none =>
          dsimp only at h
          split at h
          case isTrue h1 => simp at h
          case isFalse h1 =>
            split at h
            case isTrue h2 =>
              obtain ⟨hu, h3⟩ := Prod.mk.injEq .. ▸ h
              obtain ⟨hst, herr⟩ := Prod.mk.injEq .. ▸ h3
              rw [Except.error.injEq] at herr
              subst hu
              subst herr
              refine ⟨rfl, ?_, rfl, rfl, ?_⟩
              · rw [← hst]
                rw [show Stmt.beginTx :: stmts0 ++ [Stmt.commitTx, Stmt.rollbackTx]
                      = (Stmt.beginTx :: stmts0 ++ [Stmt.commitTx]) ++ [Stmt.rollbackTx] by
                    simp]
                exact getLast?_append_single _ _
              · intro s hs
                rw [UowError.queryFailed.injEq] at hs
                subst hs
                rw [← hst]
                exact List.mem_cons_of_mem _ (List.mem_append_right _ (by simp))
            case isFalse h2 =>
              obtain ⟨hu, h3⟩ := Prod.mk.injEq .. ▸ h
              obtain ⟨hst, herr⟩ := Prod.mk.injEq .. ▸ h3
              rw [Except.error.injEq] at herr
              subst hu
              subst herr
              refine ⟨rfl, ?_, rfl, rfl, ?_⟩
              · rw [← hst]
                rw [show Stmt.beginTx :: stmts0 ++ [Stmt.commitTx, Stmt.rollbackTx]
                      = (Stmt.beginTx :: stmts0 ++ [Stmt.commitTx]) ++ [Stmt.rollbackTx] by
                    simp]
                exact getLast?_append_single _ _
              · intro s hs
                rw [UowError.queryFailed.injEq] at hs
                subst hs
                rw [← hst]
                exact List.mem_cons_of_mem _ (List.mem_append_right _ (by simp))

theorem rollback_atomicity_witness :
    ((uowScenario.commit failUpdateOracle).1.getChanges = uowScenario.getChanges)
    ∧ ((uowScenario.commit failUpdateOracle).1.hasChanges = uowScenario.hasChanges)
    ∧ ((uowScenario.commit failUpdateOracle).2.1.getLast? = some .rollbackTx) := by
  have h := rollback_atomicity uowScenario failUpdateOracle
    (uowScenario.commit failUpdateOracle).1 (uowScenario.commit failUpdateOracle).2.1
    (.queryFailed (.updateRow "users" ["name"] ["id"] [.vstr "Jane", .vnum 1]))
    rfl rfl rfl
  exact ⟨h.2.2.1, h.2.2.2.1, h.2.1⟩

theorem okStmtOf_ok (o : Option Stmt) : okStmtOf (.ok o) = o := by
  cases o <;> rfl

theorem isDelete_mkDeleteStmt (md : EntityMetadata) (c : EntityChange) :
    (mkDeleteStmt md c).isDelete = true := by
  unfold mkDeleteStmt
  rcases hw : buildWhereClause c.id md with ⟨cols, vals⟩
  simp [hw, Stmt.isDelete]

theorem mkUpdateStmt_shape (md : EntityMetadata) (c : EntityChange) :
    mkUpdateStmt md c = none
      ∨ ∃ t sc wc vs, mkUpdateStmt md c = some (.updateRow t sc wc vs) := by
  unfold mkUpdateStmt
  dsimp only
  split
  · exact Or.inl rfl
  · exact Or.inr ⟨_, _, _, _, rfl⟩

theorem isUpdate_mkUpdateStmt (md : EntityMetadata) (c : EntityChange) (s : Stmt)
    (h : mkUpdateStmt md c = some s) : s.isUpdate = true := by
  rcases mkUpdateStmt_shape md c with hsh | ⟨t, sc, wc, vs, hsh⟩ <;> rw [hsh] at h
  · cases h
  · rw [Option.some.injEq] at h
    rw [← h]
    rfl

theorem isInsert_mkInsertStmt (md : EntityMetadata) (c : EntityChange) :
    (mkInsertStmt md c).isInsert = true := rfl

/-- A delete change contributes only DELETE statements. -/
theorem buildStmtFor_deleted (u : UnitOfWork) (c : EntityChange) (s : Stmt)
    (htype : c.type = .deleted) (h : okStmtOf (buildStmtFor u c) = some s) :
    s.isDelete = true := by
  unfold buildStmtFor at h
  cases hmd : alGet u.entityMetadata c.entity with
  | none => rw [hmd] at h; cases h
  | some md =>
      rw [hmd, htype] at h
      rw [okStmtOf_ok, Option.some.injEq] at h
      rw [← h]
      exact isDelete_mkDeleteStmt md c

/-- An update change contributes only UPDATE statements. -/
theorem buildStmtFor_updated (u : UnitOfWork) (c : EntityChange) (s : Stmt)
    (htype : c.type = .updated) (h : okStmtOf (buildStmtFor u c) = some s) :
    s.isUpdate = true := by
  unfold buildStmtFor at h
  cases hmd : alGet u.entityMetadata c.entity with
  | none => rw [hmd] at h; cases h
  | some md =>
      rw [hmd, htype] at h
      rw [okStmtOf_ok] at h
      exact isUpdate_mkUpdateStmt md c s h

/-- A create change contributes only INSERT statements. -/
theorem buildStmtFor_created (u : UnitOfWork) (c : EntityChange) (s : Stmt)
    (htype : c.type = .created) (h : okStmtOf (buildStmtFor u c) = some s) :
    s.isInsert = true := by
  unfold buildStmtFor at h
  cases hmd : alGet u.entityMetadata c.entity with
  | none => rw [hmd] at h; cases h
  | some md =>
      rw [hmd, htype] at h
      rw [okStmtOf_ok, Option.some.injEq] at h
      rw [← h]
      exact isInsert_mkInsertStmt md c

/-- C3 (confirmed): a successful commit with at least one pending
delete, update and create issues exactly one BEGIN, then all DELETE
statements, then all UPDATE statements, then all INSERT statements,
then one COMMIT. -/
theorem commit_ordering (u : UnitOfWork) (oracle : Nat → Bool) (u' : UnitOfWork)
    (stmts : List Stmt) (r : CommitResult)
    (hd : ∃ c ∈ u.getChanges, c.type = .deleted)
    (_hu : ∃ c ∈ u.getChanges, c.type = .updated)
    (hc : ∃ c ∈ u.getChanges, c.type = .created)
    (h : u.commit oracle = (u', stmts, .ok r)) :
    ∃ ds us cs, stmts = Stmt.beginTx :: (ds ++ us ++ cs) ++ [Stmt.commitTx]
      ∧ (∀ s ∈ ds, s.isDelete = true) ∧ (∀ s ∈ us, s.isUpdate = true)
      ∧ (∀ s ∈ cs, s.isInsert = true) ∧ ds ≠ [] ∧ cs ≠ [] := by
  unfold UnitOfWork.commit at h
  dsimp only at h
  split at h
  case isTrue => simp at h
  case isFalse =>
    split at h
    case isTrue => simp at h
    case isFalse =>
      split at h
      case isTrue hemp =>
        exfalso
        obtain ⟨c, hcm, -⟩ := hd
        rw [List.isEmpty_iff] at hemp
        unfold UnitOfWork.getChanges at hcm
        rw [hemp] at hcm
        simp at hcm
      case isFalse hemp =>
        split at h
        case isTrue h0 =>
          split at h <;> simp at h
        case isFalse h0 =>
          rcases hrun : runItems oracle 1 (commitItems u) with ⟨idx, stmts0, err⟩
          rw [hrun] at h
          cases err with
          | some e0 =>
              dsimp only at h
              split at h <;> simp at h
          | none =>
              dsimp only at h
              split at h
              case isFalse h1 =>
                split at h <;> simp at h
              case isTrue h1 =>
                obtain ⟨-, h2⟩ := Prod.mk.injEq .. ▸ h
                obtain ⟨hst, -⟩ := Prod.mk.injEq .. ▸ h2
                have hstmts0 : stmts0 = (commitItems u).filterMap okStmtOf :=
                  runItems_none_stmts oracle (commitItems u) 1 idx stmts0 hrun
                have hsplit : stmts0
                    = (commitDeletes u).filterMap (fun c => okStmtOf (buildStmtFor u c))
                      ++ (commitUpdates u).filterMap (fun c => okStmtOf (buildStmtFor u c))
                      ++ (commitCreates u).filterMap (fun c => okStmtOf (buildStmtFor u c)) := by
                  rw [hstmts0]
                  unfold commitItems
                  rw [List.filterMap_map, List.filterMap_append, List.filterMap_append]
                  rfl
                refine ⟨(commitDeletes u).filterMap (fun c => okStmtOf (buildStmtFor u c)),
                        (commitUpdates u).filterMap (fun c => okStmtOf (buildStmtFor u c)),
                        (commitCreates u).filterMap (fun c => okStmtOf (buildStmtFor u c)),
                        ?_, ?_, ?_, ?_, ?_, ?_⟩
                · rw [← hst, hsplit]
                · intro s hs
                  rcases List.mem_filterMap.mp hs with ⟨c, hcm, hok⟩
                  have htype : c.type = .deleted := by
                    have := (List.mem_filter.mp hcm).2
                    exact of_decide_eq_true this
                  exact buildStmtFor_deleted u c s htype hok
                · intro s hs
                  rcases List.mem_filterMap.mp hs with ⟨c, hcm, hok⟩
                  have htype : c.type = .updated := by
                    have := (List.mem_filter.mp hcm).2
                    exact of_decide_eq_true this
                  exact buildStmtFor_updated u c s htype hok
                · intro s hs
                  rcases List.mem_filterMap.mp hs with ⟨c, hcm, hok⟩
                  have htype : c.type = .created := by
                    have := (List.mem_filter.mp hcm).2
                    exact of_decide_eq_true this
                  exact buildStmtFor_created u c s htype hok
                · obtain ⟨c, hcm, htype⟩ := hd
                  have hmemd : c ∈ commitDeletes u :=
                    List.mem_filter.mpr ⟨hcm, decide_eq_true htype⟩
                  have hitem : buildStmtFor u c ∈ commitItems u := by
                    unfold commitItems
                    exact List.mem_map_of_mem _
                      (List.mem_append_left _ (List.mem_append_left _ hmemd))
                  have hsafe := runItems_none_no_error oracle (commitItems u) 1 idx stmts0
                    hrun (buildStmtFor u c) hitem
                  cases hmd : alGet u.entityMetadata c.entity with
                  | none =>
                      exfalso
                      refine hsafe (.noMetadata c.entity) ?_
                      unfold buildStmtFor
                      rw [hmd]
                  | some md =>
                      apply List.ne_nil_of_mem (a := mkDeleteStmt md c)
                      refine List.mem_filterMap.mpr ⟨c, hmemd, ?_⟩
                      unfold buildStmtFor
                      rw [hmd, htype]
                      rfl
                · obtain ⟨c, hcm, htype⟩ := hc
                  have hmemc : c ∈ commitCreates u :=
                    List.mem_filter.mpr ⟨hcm, decide_eq_true htype⟩
                  have hitem : buildStmtFor u c ∈ commitItems u := by
                    unfold commitItems
                    exact List.mem_map_of_mem _ (List.mem_append_right _ hmemc)
                  have hsafe := runItems_none_no_error oracle (commitItems u) 1 idx stmts0
                    hrun (buildStmtFor u c) hitem
                  cases hmd : alGet u.entityMetadata c.entity with
                  | none =>
                      exfalso
                      refine hsafe (.noMetadata c.entity) ?_
                      unfold buildStmtFor
                      rw [hmd]
                  | some md =>
                      apply List.ne_nil_of_mem (a := mkInsertStmt md c)
                      refine List.mem_filterMap.mpr ⟨c, hmemc, ?_⟩
                      unfold buildStmtFor
                      rw [hmd, htype]
                      rfl

theorem commit_ordering_witness :
    ∃ ds us cs, (uowScenario.commit allOkOracle).2.1
        = Stmt.beginTx :: (ds ++ us ++ cs) ++ [Stmt.commitTx]
      ∧ (∀ s ∈ ds, s.isDelete = true) ∧ (∀ s ∈ us, s.isUpdate = true)
      ∧ (∀ s ∈ cs, s.isInsert = true) ∧ ds ≠ [] ∧ cs ≠ [] := by
  exact commit_ordering uowScenario allOkOracle (uowScenario.commit allOkOracle).1
    (uowScenario.commit allOkOracle).2.1 ⟨1, 1, 1⟩ (by decide) (by decide) (by decide) rfl

theorem jsIndexOf_get {α : Type} [DecidableEq α] :
    ∀ (xs : List α) (x : α) (i : Nat), jsIndexOf xs x = some i → xs.get? i = some x := by
  intro xs
  induction xs with
  | nil => intro x i h; cases h
  | cons y ys ih =>
      intro x i h
      unfold jsIndexOf at h
      by_cases hy : y = x
      · rw [if_pos hy] at h
        rw [Option.some.injEq] at h
        subst h
        simp [hy]
      · rw [if_neg hy] at h
        cases hrec : jsIndexOf ys x with
        | none => rw [hrec] at h; cases h
        | some j =>
            rw [hrec] at h
            rw [Option.map_some', Option.some.injEq] at h
            subst h
            simpa using ih x j hrec

theorem jsIndexOf_eq_none {α : Type} [DecidableEq α] :
    ∀ (xs : List α) (x : α), x ∉ xs → jsIndexOf xs x = none := by
  intro xs
  induction xs with
  | nil => intro x h; rfl
  | cons y ys ih =>
      intro x h
      rw [List.mem_cons] at h
      push_neg at h
      unfold jsIndexOf
      rw [if_neg (fun he => h.1 he.symm), ih x h.2]
      rfl

/-- C9 (confirmed): rollbackToSavepoint with a known active transaction
and a recorded savepoint name issues ROLLBACK TO SAVEPOINT and prunes
the savepoint list to its first i+1 entries (i the index of the name);
an unknown or inactive transaction id fails with NoActiveTransaction;
a name not in the list fails with SavepointNotFound. -/
theorem savepoint_rollback_pruning :
    (∀ (tm : TransactionManager) (txId name : String) (tx : TransactionContext) (i : Nat),
        alGet tm.activeTransactions txId = some tx → tx.isActive = true →
        jsIndexOf tx.savepoints name = some i →
        tm.conn ("ROLLBACK TO SAVEPOINT " ++ name) = true →
        tm.rollbackToSavepoint txId name
          = (pruneSavepoints tm txId tx i, ["ROLLBACK TO SAVEPOINT " ++ name], .ok ())
          ∧ tx.savepoints.get? i = some name)
    ∧ (∀ (tm : TransactionManager) (txId name : String),
        alGet tm.activeTransactions txId = none →
        tm.rollbackToSavepoint txId name = (tm, [], .error (.noActiveTransaction txId)))
    ∧ (∀ (tm : TransactionManager) (txId name : String) (tx : TransactionContext),
        alGet tm.activeTransactions txId = some tx → tx.isActive = false →
        tm.rollbackToSavepoint txId name = (tm, [], .error (.noActiveTransaction txId)))
    ∧ (∀ (tm : TransactionManager) (txId name : String) (tx : TransactionContext),
        alGet tm.activeTransactions txId = some tx → tx.isActive = true →
        name ∉ tx.savepoints →
        tm.rollbackToSavepoint txId name = (tm, [], .error (.savepointNotFound name))) := by
  refine ⟨?_, ?_, ?_, ?_⟩
  · intro tm txId name tx i htx hAct hidx hconn
    constructor
    · unfold TransactionManager.rollbackToSavepoint pruneSavepoints
      simp [htx, hAct, hidx, hconn]
    · exact jsIndexOf_get tx.savepoints name i hidx
  · intro tm txId name htx
    unfold TransactionManager.rollbackToSavepoint
    simp [htx]
  · intro tm txId name tx htx hAct
    unfold TransactionManager.rollbackToSavepoint
    simp [htx, hAct]
  · intro tm txId name tx htx hAct hmem
    unfold TransactionManager.rollbackToSavepoint
    simp [htx, hAct, jsIndexOf_eq_none tx.savepoints name hmem]

theorem savepoint_rollback_pruning_witness :
    (tmWithSavepoints.rollbackToSavepoint "tx_1" "b"
      = (pruneSavepoints tmWithSavepoints "tx_1" txWithSavepoints 1,
         ["ROLLBACK TO SAVEPOINT " ++ "b"], .ok ()))
    ∧ (tmWithSavepoints.rollbackToSavepoint "tx_9" "b"
        = (tmWithSavepoints, [], .error (.noActiveTransaction "tx_9")))
    ∧ (tmWithSavepoints.rollbackToSavepoint "tx_1" "zz"
        = (tmWithSavepoints, [], .error (.savepointNotFound "zz"))) := by
  refine ⟨?_, ?_, ?_⟩
  · exact (savepoint_rollback_pruning.1 tmWithSavepoints "tx_1" "b" txWithSavepoints 1
      rfl rfl rfl rfl).1
  · exact savepoint_rollback_pruning.2.1 tmWithSavepoints "tx_9" "b" rfl
  · exact savepoint_rollback_pruning.2.2.2 tmWithSavepoints "tx_1" "zz" txWithSavepoints
      rfl rfl (by decide)

theorem runSqlList_allOk (conn : String → Bool) (hconn : ∀ s, conn s = true) :
    ∀ l, runSqlList conn l = .ok () := by
  intro l
  induction l with
  | nil => rfl
  | cons s rest ih =>
      unfold runSqlList
      rw [hconn s, if_pos rfl]
      exact ih

/-- One transaction attempt at top level (no enclosing transaction) on a
connection whose queries all succeed: the context is removed again, the
transaction counter advances, and the outcome mirrors the callback's,
with retries reporting the attempt number. -/
theorem executeTransaction_empty {T : Type} (tm : TransactionManager)
    (opts : TransactionOptions) (k : Nat) (cb : Except JsError T)
    (hconn : ∀ s, tm.conn s = true) (hempty : tm.activeTransactions = []) :
    tm.executeTransaction opts k cb
      = ({ tm with activeTransactions := [], nextTransactionId := tm.nextTransactionId + 1 },
         match cb with
         | .ok v => .ok ⟨v, k, 0⟩
         | .error e => .error (.callbackFailed e)) := by
  unfold TransactionManager.executeTransaction
  rw [hempty]
  dsimp only [List.length_nil]
  rw [if_pos rfl]
  rw [runSqlList_allOk tm.conn hconn]
  cases cb with
  | error e =>
      dsimp only
      rw [Prod.mk.injEq]
      constructor
      · rw [TransactionManager.mk.injEq]
        refine ⟨rfl, ?_, rfl, rfl⟩
        simp [alSet, alErase]
      · rfl
  | ok v =>
      dsimp only
      rw [if_pos rfl, hconn "COMMIT", if_pos rfl]
      rw [Prod.mk.injEq]
      constructor
      · rw [TransactionManager.mk.injEq]
        refine ⟨rfl, ?_, rfl, rfl⟩
        simp [alSet, alErase]
      · rfl

/-- A deadlock failure below the retry limit sleeps the backoff delay
and re-enters the loop with the retry counter incremented. -/
theorem withTransactionLoop_step_deadlock {T : Type} (opts : TransactionOptions)
    (maxR : Nat) (cbs : Nat → Except JsError T) (tm : TransactionManager) (k : Nat)
    (e : JsError) (tm'' : TransactionManager) (delays : List Nat)
    (out : Except TmError (TransactionResult T))
    (hconn : ∀ s, tm.conn s = true) (hempty : tm.activeTransactions = [])
    (hrd : opts.retryOnDeadlock = true) (hdl : isDeadlockErr e = true)
    (hcb : cbs k = .error e) (hk : k < maxR)
    (hrest : withTransactionLoop opts maxR cbs
        ({ tm with activeTransactions := [], nextTransactionId := tm.nextTransactionId + 1 })
        (k + 1) = (tm'', delays, out)) :
    withTransactionLoop opts maxR cbs tm k
      = (tm'', effRetryDelay opts * 2 ^ k :: delays, out) := by
  rw [withTransactionLoop]
  rw [executeTransaction_empty tm opts k (cbs k) hconn hempty]
  rw [hcb]
  dsimp only
  rw [dif_pos ⟨by rw [tmErrIsDeadlock, hdl, hrd]; rfl, hk⟩]
  rw [hrest]
  dsimp only
  rw [Nat.add_sub_cancel]

/-- A successful attempt ends the loop with retries = the attempt
counter. -/
theorem withTransactionLoop_step_ok {T : Type} (opts : TransactionOptions)
    (maxR : Nat) (cbs : Nat → Except JsError T) (tm : TransactionManager) (k : Nat) (v : T)
    (hconn : ∀ s, tm.conn s = true) (hempty : tm.activeTransactions = [])
    (hcb : cbs k = .ok v) :
    withTransactionLoop opts maxR cbs tm k
      = ({ tm with activeTransactions := [], nextTransactionId := tm.nextTransactionId + 1 },
         [], .ok ⟨v, k, 0⟩) := by
  rw [withTransactionLoop]
  rw [executeTransaction_empty tm opts k (cbs k) hconn hempty]
  rw [hcb]

/-- A non-retryable failure (here: not a deadlock) ends the loop with
the error after this single attempt. -/
theorem withTransactionLoop_step_err {T : Type} (opts : TransactionOptions)
    (maxR : Nat) (cbs : Nat → Except JsError T) (tm : TransactionManager) (k : Nat)
    (e : JsError)
    (hconn : ∀ s, tm.conn s = true) (hempty : tm.activeTransactions = [])
    (hnd : isDeadlockErr e = false) (hcb : cbs k = .error e) :
    withTransactionLoop opts maxR cbs tm k
      = ({ tm with activeTransactions := [], nextTransactionId := tm.nextTransactionId + 1 },
         [], .error (.callbackFailed e)) := by
  rw [withTransactionLoop]
  rw [executeTransaction_empty tm opts k (cbs k) hconn hempty]
  rw [hcb]
  dsimp only
  rw [dif_neg]
  intro hcontra
  rw [tmErrIsDeadlock, hnd] at hcontra
  simp at hcontra

/-- C5 (confirmed): under retryOnDeadlock with maxRetries 3 and a
nonzero retryDelay d, a callback failing with deadlock errors on its
first two attempts and succeeding on the third resolves with the
callback's result and retries = 2, after backoff delays d * 2^0 and
d * 2^1 (the k-th retry sleeps d * 2^(k-1)); a non-deadlock error is
never retried and propagates after a single attempt. -/
theorem deadlock_retry :
    (∀ (T : Type) (tm : TransactionManager) (cbs : Nat → Except JsError T)
        (opts : TransactionOptions) (e1 e2 : JsError) (v : T) (d : Nat),
        (∀ s, tm.conn s = true) → tm.activeTransactions = [] →
        opts.retryOnDeadlock = true → opts.maxRetries = some 3 →
        opts.retryDelay = some d → d ≠ 0 →
        isDeadlockErr e1 = true → isDeadlockErr e2 = true →
        cbs 0 = .error e1 → cbs 1 = .error e2 → cbs 2 = .ok v →
        ∃ tm', tm.withTransaction cbs opts
          = (tm', [d * 2 ^ 0, d * 2 ^ 1], .ok ⟨v, 2, 0⟩))
    ∧ (∀ (T : Type) (tm : TransactionManager) (cbs : Nat → Except JsError T)
          (opts : TransactionOptions) (e : JsError),
        (∀ s, tm.conn s = true) → tm.activeTransactions = [] →
        isDeadlockErr e = false → cbs 0 = .error e →
        ∃ tm', tm.withTransaction cbs opts = (tm', [], .error (.callbackFailed e))) := by
  constructor
  · intro T tm cbs opts e1 e2 v d hconn hempty hrd hmax hdelay hd0 hdl1 hdl2 hcb0 hcb1 hcb2
    have heff : effRetryDelay opts = d := by
      unfold effRetryDelay
      rw [hdelay]
      dsimp only
      rw [if_neg hd0]
    apply Exists.intro
    unfold TransactionManager.withTransaction
    rw [hmax]
    dsimp only [Option.getD_some]
    set tm1 : TransactionManager :=
      { tm with activeTransactions := [], nextTransactionId := tm.nextTransactionId + 1 }
    set tm2 : TransactionManager :=
      { tm1 with activeTransactions := [], nextTransactionId := tm1.nextTransactionId + 1 }
    have hconn1 : ∀ s, tm1.conn s = true := hconn
    have hconn2 : ∀ s, tm2.conn s = true := hconn
    have h2 := withTransactionLoop_step_ok (T := T) opts 3 cbs tm2 2 v hconn2 rfl hcb2
    have h1 := withTransactionLoop_step_deadlock (T := T) opts 3 cbs tm1
      1 e2 _ _ _ hconn1 rfl hrd hdl2 hcb1 (by omega) h2
    have h0 := withTransactionLoop_step_deadlock (T := T) opts 3 cbs tm
      0 e1 _ _ _ hconn hempty hrd hdl1 hcb0 (by omega) h1
    rw [h0, heff]
  · intro T tm cbs opts e hconn hempty hnd hcb0
    apply Exists.intro
    unfold TransactionManager.withTransaction
    exact withTransactionLoop_step_err opts _ cbs tm 0 e hconn hempty hnd hcb0

theorem deadlock_retry_witness :
    (∃ tm', tmConnAll.withTransaction
        (fun k => if k < 2 then .error deadlockErr else .ok (42 : Nat))
        { retryOnDeadlock := true, maxRetries := some 3, retryDelay := some 50 }
      = (tm', [50 * 2 ^ 0, 50 * 2 ^ 1], .ok ⟨42, 2, 0⟩))
    ∧ (∃ tm', tmConnAll.withTransaction
        (fun _ => (.error uniqueViolationErr : Except JsError Nat))
        { retryOnDeadlock := true, maxRetries := some 3, retryDelay := some 50 }
      = (tm', [], .error (.callbackFailed uniqueViolationErr))) := by
  constructor
  · exact deadlock_retry.1 Nat tmConnAll
      (fun k => if k < 2 then .error deadlockErr else .ok (42 : Nat))
      { retryOnDeadlock := true, maxRetries := some 3, retryDelay := some 50 }
      deadlockErr deadlockErr 42 50 (fun _ => rfl) rfl rfl rfl rfl (by decide)
      rfl rfl rfl rfl rfl
  · exact deadlock_retry.2 Nat tmConnAll
      (fun _ => (.error uniqueViolationErr : Except JsError Nat))
      { retryOnDeadlock := true, maxRetries := some 3, retryDelay := some 50 }
      uniqueViolationErr (fun _ => rfl) rfl (by decide) rfl

/-- Every attempt notification emitted from retryCount rc onward carries
a 1-based attempt number in (rc, maxRetries] and the delay
retryDelay * 2^(attempt - 1) (or the flat delay without backoff). -/
theorem attemptReconnection_attempt_bounds (m d : Nat) (bk : Bool) (health : Nat → Bool) :
    ∀ (fuel rc : Nat), m - rc = fuel →
    ∀ ev ∈ attemptReconnection m d bk health rc,
      ∀ n dl, ev = .reconnectionAttempt n dl →
        rc + 1 ≤ n ∧ n ≤ m ∧ dl = (if bk then d * 2 ^ (n - 1) else d) := by
  intro fuel
  induction fuel with
  | zero =>
      intro rc hfuel ev hev n dl hattempt
      have hge : m ≤ rc := by omega
      unfold attemptReconnection at hev
      rw [if_pos hge] at hev
      rw [List.mem_singleton] at hev
      subst hev
      cases hattempt
  | succ f ih =>
      intro rc hfuel ev hev n dl hattempt
      have hlt : rc < m := by omega
      unfold attemptReconnection at hev
      rw [if_neg (by omega)] at hev
      dsimp only at hev
      rw [List.mem_cons] at hev
      rcases hev with hev | hev
      · subst hev
        rw [PoolEvent.reconnectionAttempt.injEq] at hattempt
        obtain ⟨hn, hdl⟩ := hattempt
        subst hn
        subst hdl
        refine ⟨le_refl _, by omega, ?_⟩
        rw [Nat.add_sub_cancel]
      · by_cases hh : health rc = true
        · rw [if_pos hh, List.mem_singleton] at hev
          subst hev
          cases hattempt
        · rw [if_neg hh] at hev
          have := ih (rc + 1) (by omega) ev hev n dl hattempt
          exact ⟨by omega, this.2.1, this.2.2⟩

/-- When every health check fails, the pool emits one attempt
notification per attempt number rc+1 .. maxRetries and then a single
failure notification. -/
theorem attemptReconnection_all_fail (m d : Nat) (bk : Bool) :
    ∀ (fuel rc : Nat), m - rc = fuel → rc ≤ m →
    attemptReconnection m d bk (fun _ => false) rc
      = ((List.range' (rc + 1) (m - rc)).map
          fun n => .reconnectionAttempt n (if bk then d * 2 ^ (n - 1) else d))
        ++ [.reconnectionFailed m] := by
  intro fuel
  induction fuel with
  | zero =>
      intro rc hfuel hle
      have heq : rc = m := by omega
      subst heq
      unfold attemptReconnection
      rw [if_pos (le_refl _)]
      simp
  | succ f ih =>
      intro rc hfuel hle
      have hlt : rc < m := by omega
      unfold attemptReconnection
      rw [if_neg (by omega)]
      dsimp only
      simp only [Bool.false_eq_true, if_false]
      rw [ih (rc + 1) (by omega) (by omega)]
      have hr : m - rc = (m - (rc + 1)) + 1 := by omega
      rw [hr, List.range'_succ (rc + 1) (m - (rc + 1)) 1, List.map_cons]
      rw [Nat.add_sub_cancel]
      rw [List.cons_append]

/-- A healthy check at retryCount rc < maxRetries produces exactly the
attempt notification followed by the success notification. -/
theorem attemptReconnection_success_shape (m d : Nat) (bk : Bool) (health : Nat → Bool)
    (rc : Nat) (hlt : rc < m) (hh : health rc = true) :
    attemptReconnection m d bk health rc
      = [.reconnectionAttempt (rc + 1) (if bk then d * 2 ^ rc else d),
         .reconnectionSuccess (rc + 1)] := by
  unfold attemptReconnection
  rw [if_neg (by omega)]
  dsimp only
  rw [if_pos hh]

/-- C8 (amended): with exponential backoff, the delay before attempt
number n (1-based) is retryDelay * 2^(n - 1) — not 2^n; attempts are
numbered 1..maxRetries; when every check fails, each attempt emits only
its attempt notification and a single failure notification follows the
last; a healthy check emits its attempt notification followed by one
success notification. -/
theorem reconnection_backoff :
    (∀ (m d : Nat) (bk : Bool) (health : Nat → Bool),
        ∀ ev ∈ attemptReconnection m d bk health 0,
        ∀ n dl, ev = .reconnectionAttempt n dl →
          1 ≤ n ∧ n ≤ m ∧ dl = (if bk then d * 2 ^ (n - 1) else d))
    ∧ (∀ (m d : Nat) (bk : Bool),
        attemptReconnection m d bk (fun _ => false) 0
          = ((List.range' 1 m).map
              fun n => .reconnectionAttempt n (if bk then d * 2 ^ (n - 1) else d))
            ++ [.reconnectionFailed m])
    ∧ (∀ (m d : Nat) (bk : Bool) (health : Nat → Bool) (rc : Nat),
        rc < m → health rc = true →
        attemptReconnection m d bk health rc
          = [.reconnectionAttempt (rc + 1) (if bk then d * 2 ^ rc else d),
             .reconnectionSuccess (rc + 1)]) := by
  refine ⟨?_, ?_, ?_⟩
  · intro m d bk health ev hev n dl hattempt
    exact attemptReconnection_attempt_bounds m d bk health (m - 0) 0 rfl ev hev n dl hattempt
  · intro m d bk
    have := attemptReconnection_all_fail m d bk (m - 0) 0 rfl (by omega)
    simpa using this
  · intro m d bk health rc hlt hh
    exact attemptReconnection_success_shape m d bk health rc hlt hh

/-- C8 as stated is false: with retryDelay 100 and backoff enabled, the
delay before attempt 1 is 100 = retryDelay * 2^0, not
retryDelay * 2^1 = 200; and a failing non-final attempt (attempt 1
here) emits no success/failure notification of its own — a single
failure notification follows the last attempt only. -/
theorem reconnection_backoff_counterexample :
    attemptReconnection 2 100 true (fun _ => false) 0
      = [.reconnectionAttempt 1 100, .reconnectionAttempt 2 200, .reconnectionFailed 2]
    ∧ (100 : Nat) ≠ 100 * 2 ^ 1 := by
  constructor
  · have := attemptReconnection_all_fail 2 100 true 2 0 rfl (by omega)
    rw [this]
    rfl
  · decide

theorem reconnection_backoff_witness :
    (attemptReconnection 2 100 true (fun _ => false) 0
      = ((List.range' 1 2).map
          fun n => .reconnectionAttempt n (if true then 100 * 2 ^ (n - 1) else 100))
        ++ [.reconnectionFailed 2])
    ∧ (attemptReconnection 3 100 true (fun n => n = 1) 1
        = [.reconnectionAttempt 2 (if true then 100 * 2 ^ 1 else 100),
           .reconnectionSuccess 2]) := by
  constructor
  · exact reconnection_backoff.2.1 2 100 true
  · exact reconnection_backoff.2.2 3 100 true (fun n => n = 1) 1 (by omega) (by decide)

/-- Tracking a key not yet tracked allocates a fresh Proxy object. -/
theorem track_fresh (t : ChangeTracker) (e : String) (id : Value) (dref : Ref)
    (dval : Value) (isNew : Bool)
    (hnone : alGet t.trackedEntities (createKey e id) = none) :
    t.track e id dref dval isNew
      = ({ trackedEntities := alSet t.trackedEntities (createKey e id)
            { entity := e, id := id, dataRef := dref, proxyRef := .proxy t.nextProxyId,
              data := dval, originalData := deepClone dval, isNew := isNew,
              isDeleted := false, changedFields := [] },
           nextProxyId := t.nextProxyId + 1 }, .proxy t.nextProxyId) := by
  unfold ChangeTracker.track
  dsimp only
  rw [hnone]

/-- C10 (confirmed): with change tracking enabled, persist on a fresh
entity stores the RAW instance in the identity map and returns a
freshly allocated tracker proxy — a different reference — so a
subsequent get(kind, id) returns the original untracked instance, not
what persist returned; create and get-with-data instead replace the
identity-map entry with the tracked proxy, so get afterwards returns
exactly what they returned. -/
theorem persist_returns_proxy_keeps_raw_entry :
    (∀ (u u1 : UnitOfWork) (e : String) (n : Nat) (ival : Value) (md : EntityMetadata)
        (p : Ref),
        u.isActive = true → u.enableChangeTracking = true →
        u.identityMap.enableWeakRefs = true → u.identityMap.wf →
        alGet u.entityMetadata e = some md →
        u.identityMap.get e (extractId ival md) = .ok none →
        alGet u.changeTracker.trackedEntities (createKey e (extractId ival md)) = none →
        u.persist e (.inst n) ival = (u1, .ok p) →
        p = .proxy u.changeTracker.nextProxyId
          ∧ p ≠ .inst n
          ∧ u1.identityMap.get e (extractId ival md) = .ok (some (.inst n))
          ∧ (u1.get e (extractId ival md) none).2 = .ok (some (.inst n)))
    ∧ (∀ (u u1 : UnitOfWork) (e : String) (dref : Ref) (dval : Value) (md : EntityMetadata)
          (r : Ref),
        u.isActive = true → u.enableChangeTracking = true →
        u.identityMap.enableWeakRefs = true → u.identityMap.wf →
        alGet u.entityMetadata e = some md →
        u.identityMap.get e (extractId dval md) = .ok none →
        alGet u.changeTracker.trackedEntities (createKey e (extractId dval md)) = none →
        u.create e dref dval = (u1, .ok r) →
        r = .proxy u.changeTracker.nextProxyId
          ∧ (u1.get e (extractId dval md) none).2 = .ok (some r))
    ∧ (∀ (u u1 : UnitOfWork) (e : String) (id : Value) (dref : Ref) (dval : Value) (r : Ref),
        u.isActive = true → u.enableChangeTracking = true →
        u.identityMap.enableWeakRefs = true → u.identityMap.wf →
        u.identityMap.get e id = .ok none →
        alGet u.changeTracker.trackedEntities (createKey e id) = none →
        u.get e id (some (dref, dval)) = (u1, .ok (some r)) →
        r = .proxy u.changeTracker.nextProxyId
          ∧ (u1.get e id none).2 = .ok (some r)) := by
  refine ⟨?_, ?_, ?_⟩
  · intro u u1 e n ival md p hact htr hw hwf hmd hget hnotracked h
    unfold UnitOfWork.persist at h
    simp only [hact, Bool.not_true, Bool.false_eq_true, if_false, hmd] at h
    rcases hset : u.identityMap.set e (extractId ival md) (.inst n) with ⟨im1, res⟩
    simp only [hset] at h
    cases res with
    | error msg => simp at h
    | ok managed =>
        obtain ⟨key, hkey⟩ :=
          IdentityMap.set_ok_key u.identityMap im1 e (extractId ival md) (.inst n) managed hset
        have hfr : (u.identityMap.set e (extractId ival md) (.inst n)).2 = .ok (.inst n) :=
          IdentityMap.set_fresh u.identityMap e (extractId ival md) (.inst n) key hkey hwf hget
        rw [hset] at hfr
        dsimp only at hfr
        rw [Except.ok.injEq] at hfr
        subst hfr
        simp only [htr, if_true] at h
        rw [track_fresh u.changeTracker e (extractId ival md) (.inst n) ival true
          hnotracked] at h
        dsimp only at h
        obtain ⟨hu, hp⟩ := Prod.mk.injEq .. ▸ h
        rw [Except.ok.injEq] at hp
        subst hp
        subst hu
        have hget1 : im1.get e (extractId ival md) = .ok (some (.inst n)) :=
          IdentityMap.get_after_set u.identityMap e (extractId ival md) (.inst n) im1
            (.inst n) hw hset
        refine ⟨rfl, by simp, hget1, ?_⟩
        unfold UnitOfWork.get
        simp [hact, hget1]
  · intro u u1 e dref dval md r hact htr hw hwf hmd hget hnotracked h
    unfold UnitOfWork.create at h
    simp only [hact, Bool.not_true, Bool.false_eq_true, if_false, hmd, hget] at h
    rcases hset : u.identityMap.set e (extractId dval md) dref with ⟨im1, res⟩
    simp only [hset] at h
    cases res with
    | error msg => simp at h
    | ok r0 =>
        have hw1 : im1.enableWeakRefs = true := by
          have := IdentityMap.set_weakRefs u.identityMap e (extractId dval md) dref
          rw [hset] at this
          rw [this, hw]
        have hwf1 : im1.wf := by
          have := IdentityMap.wf_set u.identityMap e (extractId dval md) dref hwf
          rw [hset] at this
          exact this
        obtain ⟨key, hkey⟩ :=
          IdentityMap.set_ok_key u.identityMap im1 e (extractId dval md) dref r0 hset
        simp only [htr, if_true] at h
        rw [track_fresh u.changeTracker e (extractId dval md) r0 dval true hnotracked] at h
        dsimp only at h
        rcases hdel : im1.delete e (extractId dval md) with ⟨im2, dres⟩
        simp only [hdel] at h
        cases dres with
        | error msg => simp at h
        | ok db =>
            have hw2 : im2.enableWeakRefs = true := by
              have := IdentityMap.delete_weakRefs im1 e (extractId dval md)
              rw [hdel] at this
              rw [this, hw1]
            have hwf2 : im2.wf := by
              have := IdentityMap.wf_delete im1 e (extractId dval md) hwf1
              rw [hdel] at this
              exact this
            have hnone2 : im2.get e (extractId dval md) = .ok none :=
              IdentityMap.delete_get_none im1 im2 e (extractId dval md) db hwf1 hdel
            rcases hset2 : im2.set e (extractId dval md) (.proxy u.changeTracker.nextProxyId)
              with ⟨im3, sres⟩
            simp only [hset2] at h
            cases sres with
            | error msg => simp at h
            | ok r' =>
                have hfr2 : (im2.set e (extractId dval md)
                    (.proxy u.changeTracker.nextProxyId)).2
                    = .ok (.proxy u.changeTracker.nextProxyId) :=
                  IdentityMap.set_fresh im2 e (extractId dval md)
                    (.proxy u.changeTracker.nextProxyId) key hkey hwf2 hnone2
                rw [hset2] at hfr2
                dsimp only at hfr2
                rw [Except.ok.injEq] at hfr2
                subst hfr2
                have hget3 : im3.get e (extractId dval md)
                    = .ok (some (.proxy u.changeTracker.nextProxyId)) :=
                  IdentityMap.get_after_set im2 e (extractId dval md)
                    (.proxy u.changeTracker.nextProxyId) im3
                    (.proxy u.changeTracker.nextProxyId) hw2 hset2
                dsimp only at h
                obtain ⟨hu, hr⟩ := Prod.mk.injEq .. ▸ h
                rw [Except.ok.injEq] at hr
                subst hr
                subst hu
                refine ⟨rfl, ?_⟩
                unfold UnitOfWork.get
                simp [hact, hget3]
  · intro u u1 e id dref dval r hact htr hw hwf hget hnotracked h
    unfold UnitOfWork.get at h
    simp only [hact, Bool.not_true, Bool.false_eq_true, if_false, hget] at h
    rcases hset : u.identityMap.set e id dref with ⟨im1, res⟩
    simp only [hset] at h
    cases res with
    | error msg => simp at h
    | ok r0 =>
        have hw1 : im1.enableWeakRefs = true := by
          have := IdentityMap.set_weakRefs u.identityMap e id dref
          rw [hset] at this
          rw [this, hw]
        have hwf1 : im1.wf := by
          have := IdentityMap.wf_set u.identityMap e id dref hwf
          rw [hset] at this
          exact this
        obtain ⟨key, hkey⟩ := IdentityMap.set_ok_key u.identityMap im1 e id dref r0 hset
        simp only [htr, if_true] at h
        rw [track_fresh u.changeTracker e id r0 dval false hnotracked] at h
        dsimp only at h
        rcases hdel : im1.delete e id with ⟨im2, dres⟩
        simp only [hdel] at h
        cases dres with
        | error msg => simp at h
        | ok db =>
            have hw2 : im2.enableWeakRefs = true := by
              have := IdentityMap.delete_weakRefs im1 e id
              rw [hdel] at this
              rw [this, hw1]
            have hwf2 : im2.wf := by
              have := IdentityMap.wf_delete im1 e id hwf1
              rw [hdel] at this
              exact this
            have hnone2 : im2.get e id = .ok none :=
              IdentityMap.delete_get_none im1 im2 e id db hwf1 hdel
            rcases hset2 : im2.set e id (.proxy u.changeTracker.nextProxyId)
              with ⟨im3, sres⟩
            simp only [hset2] at h
            cases sres with
            | error msg => simp at h
            | ok r' =>
                have hfr2 : (im2.set e id (.proxy u.changeTracker.nextProxyId)).2
                    = .ok (.proxy u.changeTracker.nextProxyId) :=
                  IdentityMap.set_fresh im2 e id (.proxy u.changeTracker.nextProxyId)
                    key hkey hwf2 hnone2
                rw [hset2] at hfr2
                dsimp only at hfr2
                rw [Except.ok.injEq] at hfr2
                subst hfr2
                have hget3 : im3.get e id
                    = .ok (some (.proxy u.changeTracker.nextProxyId)) :=
                  IdentityMap.get_after_set im2 e id
                    (.proxy u.changeTracker.nextProxyId) im3
                    (.proxy u.changeTracker.nextProxyId) hw2 hset2
                dsimp only at h
                obtain ⟨hu, hr⟩ := Prod.mk.injEq .. ▸ h
                rw [Except.ok.injEq, Option.some.injEq] at hr
                subst hr
                subst hu
                refine ⟨rfl, ?_⟩
                unfold UnitOfWork.get
                simp [hact, hget3]

theorem persist_returns_proxy_witness :
    ((uowRegistered.persist "User" (.inst 3) dataJohn).2 = .ok (.proxy 0))
    ∧ (((uowRegistered.persist "User" (.inst 3) dataJohn).1.get "User" (.vnum 1) none).2
        = .ok (some (.inst 3)))
    ∧ (((uowRegistered.create "User" (.inst 0) dataJohn).1.get "User" (.vnum 1) none).2
        = .ok (some (.proxy 0))) := by
  have hwf : uowRegistered.identityMap.wf := by
    refine ⟨?_, ?_, ?_⟩ <;>
      simp [uowRegistered, UnitOfWork.make, UnitOfWork.registerEntity, IdentityMap.empty]
  have h1 := persist_returns_proxy_keeps_raw_entry.1 uowRegistered
    (uowRegistered.persist "User" (.inst 3) dataJohn).1 "User" 3 dataJohn mdUser (.proxy 0)
    rfl rfl rfl hwf rfl rfl rfl rfl
  have h2 := persist_returns_proxy_keeps_raw_entry.2.1 uowRegistered
    (uowRegistered.create "User" (.inst 0) dataJohn).1 "User" (.inst 0) dataJohn mdUser
    (.proxy 0) rfl rfl rfl hwf rfl rfl rfl rfl
  exact ⟨rfl, h1.2.2.2, h2.2⟩

end Hyperion
